import Mathlib

/-!
Verification development for the Ethos log-file ingestion/normalization
pipeline (`src/load_log_file.py`, function `load_log_file`).

The pipeline is shallowly embedded: a pandas `DataFrame` becomes a `Table`
(a row count plus an ordered list of named columns of `Cell`s), and each
preprocessing step of `load_log_file` becomes a Lean function on `Table`.
Machine floats are modelled as rationals; pandas' `NaN`/`NaT` missing
markers become `Cell.missing` / `Option.none`; Python exceptions
(`ValueError` from `astype(float)`, `TypeError`/`IndexError` from
`re.match(..., df['Time'].iloc[0])`) become `Except.error`.
-/

namespace EthosLog

/- Batteries marks the `Rat` field operations `@[irreducible]`, which stops
`decide` from evaluating concrete tables. Witness theorems evaluate the
pipeline on closed inputs, so restore reducibility locally (this affects
elaboration only; kernel-checked proofs are unchanged). -/
set_option allowUnsafeReducibility true

attribute [local semireducible] Rat.sub Rat.add Rat.mul Rat.inv

/-- A single cell of the table: a numeric value (pandas float, modelled as
`ℚ`), a text value, or the missing marker (`NaN`/`NaT`/`None`). -/
inductive Cell where
  | num (q : ℚ)
  | str (s : String)
  | missing
deriving DecidableEq, Repr

/-- A named column. -/
structure Col where
  name : String
  values : List Cell
deriving DecidableEq, Repr

/-- A pandas DataFrame: a row count (the index length, which survives even
if every column is dropped) and an ordered list of columns. -/
structure Table where
  nRows : Nat
  cols : List Col
deriving DecidableEq, Repr


/-- List-level membership test for a column name. -/
def anyName : List Col → String → Bool
  | [], _ => false
  | c :: l, n => (c.name == n) || anyName l n

/-- List-level lookup of the first column with a given name. -/
def findCol : List Col → String → Option Col
  | [], _ => none
  | c :: l, n => if c.name == n then some c else findCol l n

/-- List-level lookup of a column's values (first match). -/
def findVals (l : List Col) (n : String) : Option (List Cell) :=
  (findCol l n).map Col.values

/-- List-level in-place replacement of every column named `n`. -/
def replaceCol (l : List Col) (n : String) (vs : List Cell) : List Col :=
  l.map (fun c => if c.name == n then ⟨n, vs⟩ else c)

/-- `n in df.columns`. -/
def hasCol (t : Table) (n : String) : Bool :=
  anyName t.cols n

/-- `df[n]`, as an option. -/
def getCol (t : Table) (n : String) : Option (List Cell) :=
  findVals t.cols n

/-- `df[n]`, defaulting to the empty column. -/
def getColD (t : Table) (n : String) : List Cell :=
  (getCol t n).getD []

/-- `df[n] = vs`: replace the column in place if it exists, else append it
at the right end (pandas assignment semantics). -/
def setCol (t : Table) (n : String) (vs : List Cell) : Table :=
  if hasCol t n then ⟨t.nRows, replaceCol t.cols n vs⟩
  else ⟨t.nRows, t.cols ++ [⟨n, vs⟩]⟩

/-- `df.drop(columns=[n])`. -/
def dropCol (t : Table) (n : String) : Table :=
  ⟨t.nRows, t.cols.filter (fun c => !(c.name == n))⟩

/-- Well-formedness of a DataFrame: every column has the index length. -/
def UniformLen (t : Table) : Prop :=
  ∀ c ∈ t.cols, c.values.length = t.nRows

/-- Column names are pairwise distinct (pandas guarantees this on load). -/
def NamesNodup (t : Table) : Prop :=
  (t.cols.map Col.name).Nodup

/-! ### Characters, digits and string splitting

Python string/regex operations used by `load_log_file` are modelled over
`List Char`. `\d` is modelled as the ASCII digits (the source's regexes are
only applied to ASCII telemetry text). -/

def isDigitCh (c : Char) : Bool := decide ('0' ≤ c) && decide (c ≤ '9')

def digitVal (c : Char) : Nat := c.toNat - 48

def digitsToNat (l : List Char) : Nat :=
  l.foldl (fun a c => a * 10 + digitVal c) 0

def digitChar (n : Nat) : Char := Char.ofNat (48 + n)

/-- Decimal digits of `n`, most significant first (as Python's `str`). -/
def natDigits (n : Nat) : List Char :=
  if _h : n < 10 then [digitChar n]
  else natDigits (n / 10) ++ [digitChar (n % 10)]
decreasing_by exact Nat.div_lt_self (by omega) (by omega)

/-- `%02d`-style zero padding to width 2. -/
def pad2 (n : Nat) : List Char :=
  if n < 10 then '0' :: natDigits n else natDigits n

/-- `%Y`-style zero padding to width 4. -/
def pad4 (n : Nat) : List Char :=
  if n < 10 then '0' :: '0' :: '0' :: natDigits n
  else if n < 100 then '0' :: '0' :: natDigits n
  else if n < 1000 then '0' :: natDigits n
  else natDigits n

/-- Python `s.split(sep)` for a single-character separator: always returns
at least one (possibly empty) part. -/
def splitOnChar (sep : Char) : List Char → List (List Char)
  | [] => [[]]
  | c :: cs =>
    if c = sep then [] :: splitOnChar sep cs
    else
      match splitOnChar sep cs with
      | [] => [[c]]
      | p :: ps => (c :: p) :: ps

/-- Greedily consume leading ASCII digits, returning how many and the rest.
Because every separator in the patterns below is a non-digit, greedy
matching without backtracking agrees with Python's `re` semantics here. -/
def chompDigits : List Char → Nat × List Char
  | [] => (0, [])
  | c :: cs =>
    if isDigitCh c then
      let r := chompDigits cs
      (r.1 + 1, r.2)
    else (0, c :: cs)

/-- `re.match(r'^\d{1,2}:\d{2}:\d{2}\.\d+$', s)` as a boolean
(`load_log_file.py` line 94). -/
def timePat (s : String) : Bool :=
  let r1 := chompDigits s.toList
  (r1.1 == 1 || r1.1 == 2) &&
    match r1.2 with
    | ':' :: t1 =>
      let r2 := chompDigits t1
      (r2.1 == 2) &&
        match r2.2 with
        | ':' :: t2 =>
          let r3 := chompDigits t2
          (r3.1 == 2) &&
            match r3.2 with
            | '.' :: t3 =>
              let r4 := chompDigits t3
              decide (1 ≤ r4.1) && r4.2.isEmpty
            | _ => false
        | _ => false
    | _ => false

/-! ### Python `float()` (for `astype(float)`) -/

def isSpaceCh (c : Char) : Bool :=
  c = ' ' || c = '\t' || c = '\n' || c = '\r'

def toLowerCh (c : Char) : Char :=
  if decide ('A' ≤ c) && decide (c ≤ 'Z') then Char.ofNat (c.toNat + 32) else c

/-- Strip surrounding whitespace (Python `float()` tolerates it). -/
def stripCh (l : List Char) : List Char :=
  ((l.dropWhile isSpaceCh).reverse.dropWhile isSpaceCh).reverse

/-- Unsigned decimal literal: `digits`, `digits.`, `.digits` or
`digits.digits`. Exponent notation and `inf` are not modelled (no claim
exercises them). -/
def parseUFloat (cs : List Char) : Option ℚ :=
  let ip := cs.takeWhile isDigitCh
  match cs.dropWhile isDigitCh with
  | [] => if ip.isEmpty then none else some (digitsToNat ip)
  | '.' :: fr =>
    let fp := fr.takeWhile isDigitCh
    if (fr.dropWhile isDigitCh).isEmpty && !(ip.isEmpty && fp.isEmpty) then
      some ((digitsToNat ip : ℚ) + (digitsToNat fp : ℚ) / (10 : ℚ) ^ fp.length)
    else none
  | _ => none

/-- Python `float(s)` for plain decimal strings. -/
def pyFloat (s : String) : Option ℚ :=
  match stripCh s.toList with
  | '-' :: r => (parseUFloat r).map (fun q => -q)
  | '+' :: r => parseUFloat r
  | cs => parseUFloat cs

/-- `float('nan')`/`float('NaN')` succeed and give the missing marker. -/
def isNanStr (s : String) : Bool :=
  (stripCh s.toList).map toLowerCh == ['n', 'a', 'n']

/-- `Series.astype(float)` on one cell: numbers pass through, the missing
marker stays missing (`NaN`), strings are parsed, and an unparsable string
raises `ValueError` (modelled as `Except.error`). -/
def astypeFloat : Cell → Except String (Option ℚ)
  | .num q => .ok (some q)
  | .missing => .ok none
  | .str s =>
    match pyFloat s with
    | some q => .ok (some q)
    | none =>
      if isNanStr s then .ok none
      else .error ("could not convert string to float: " ++ s)

/-- `Series.astype(float)` on a whole column: the first unparsable cell
aborts the conversion. -/
def astypeFloatCol : List Cell → Except String (List (Option ℚ))
  | [] => .ok []
  | c :: cs =>
    match astypeFloat c, astypeFloatCol cs with
    | .error e, _ => .error e
    | .ok _, .error e => .error e
    | .ok v, .ok vs => .ok (v :: vs)

/-! ### Dates and timestamps (for `pd.to_datetime` and `datetime.now`) -/

/-- A calendar date, standing in for `datetime.now()`'s date part. -/
structure CDate where
  year : Nat
  month : Nat
  day : Nat
deriving DecidableEq, Repr

def isLeap (y : Nat) : Bool :=
  (y % 4 == 0 && !(y % 100 == 0)) || y % 400 == 0

def daysInMonth (y m : Nat) : Nat :=
  if m = 2 then (if isLeap y then 29 else 28)
  else if m = 4 ∨ m = 6 ∨ m = 9 ∨ m = 11 then 30
  else 31

/-- Days since 1970-01-01 of a proleptic-Gregorian date (standard civil
calendar conversion, as used by real datetime libraries). -/
def daysFromCivil (y m d : Int) : Int :=
  let y2 := if m ≤ 2 then y - 1 else y
  let era := (if 0 ≤ y2 then y2 else y2 - 399) / 400
  let yoe := y2 - era * 400
  let mp := (m + 9) % 12
  let doy := (153 * mp + 2) / 5 + d - 1
  let doe := yoe * 365 + yoe / 4 - yoe / 100 + doy
  era * 146097 + doe - 719468

/-- The year-month-day fields of a `YYYY-MM-DD` date: widths and digits
checked, out-of-range components fail (`NaT`). -/
def parseDate3 (ys ms ds : List Char) : Option Int :=
  if (ys.length == 4) && ys.all isDigitCh
      && ((ms.length == 1) || (ms.length == 2)) && ms.all isDigitCh
      && ((ds.length == 1) || (ds.length == 2)) && ds.all isDigitCh then
    let y := digitsToNat ys
    let m := digitsToNat ms
    let d := digitsToNat ds
    if 1 ≤ m ∧ m ≤ 12 ∧ 1 ≤ d ∧ d ≤ daysInMonth y m then
      some (daysFromCivil y m d)
    else none
  else none

/-- Parse a `YYYY-MM-DD` date (the shape this pipeline feeds to
`pd.to_datetime`) to days. -/
def parseDateCh (cs : List Char) : Option Int :=
  match splitOnChar '-' cs with
  | [ys, ms, ds] => parseDate3 ys ms ds
  | _ => none

/-- Seconds of a `H:MM:SS[.fff]` time-of-day from its already-split
fields: integral-second and fraction digits. -/
def parseTODSec (hs ms ip fp : List Char) : Option ℚ :=
  if (ip.length == 2) && ip.all isDigitCh
      && (fp.isEmpty || fp.all isDigitCh) then
    let h := digitsToNat hs
    let m := digitsToNat ms
    let s := digitsToNat ip
    if h ≤ 23 ∧ m ≤ 59 ∧ s ≤ 59 then
      some ((h : ℚ) * 3600 + (m : ℚ) * 60 + (s : ℚ)
        + (digitsToNat fp : ℚ) / (10 : ℚ) ^ fp.length)
    else none
  else none

/-- The hour-minute-second fields of a `H:MM:SS[.fff]` time-of-day
(1-2 hour digits, two minute and second digits, optional fraction). -/
def parseTOD3 (hs ms ss : List Char) : Option ℚ :=
  if ((hs.length == 1) || (hs.length == 2)) && hs.all isDigitCh
      && (ms.length == 2) && ms.all isDigitCh then
    match splitOnChar '.' ss with
    | [ip] => parseTODSec hs ms ip []
    | [ip, fp] => if fp.isEmpty then none else parseTODSec hs ms ip fp
    | _ => none
  else none

/-- Parse a `H:MM:SS[.fff]` time-of-day to seconds. -/
def parseTODCh (cs : List Char) : Option ℚ :=
  match splitOnChar ':' cs with
  | [hs, ms, ss] => parseTOD3 hs ms ss
  | _ => none

/-- Combine the two halves of a `"<date> <time>"` string. -/
def parseDT2 (dcs tcs : List Char) : Option ℚ :=
  match parseDateCh dcs, parseTODCh tcs with
  | some d, some t => some ((d : ℚ) * 86400 + t)
  | _, _ => none

/-- `pd.to_datetime(s, errors='coerce')` on a `"<date> <time>"` string:
`none` is `NaT`. The result counts seconds since the civil epoch. -/
def parseDateTime (s : String) : Option ℚ :=
  match splitOnChar ' ' s.toList with
  | [dcs, tcs] => parseDT2 dcs tcs
  | _ => none

/-- `(datetime.strptime("12:00:00.0", ...) + pd.Timedelta(seconds=i))
.strftime("%H:%M:%S.%f")[:-3]` (`load_log_file.py` lines 100-102): the
synthesized time for row `i`. `%H` wraps at 24 h; the microseconds stay 0,
so `[:-3]` leaves the literal `.000`. -/
def genTime (i : Nat) : String :=
  let tot := 12 * 3600 + i
  String.mk (pad2 ((tot / 3600) % 24) ++
    (':' :: (pad2 ((tot % 3600) / 60) ++
      (':' :: (pad2 (tot % 60) ++ ['.', '0', '0', '0'])))))

/-- `datetime.now().strftime('%Y-%m-%d')` (line 109). -/
def fmtDate (dt : CDate) : String :=
  String.mk (pad4 dt.year ++ ('-' :: (pad2 dt.month ++ ('-' :: pad2 dt.day))))

/-- Python `str()` of one cell, as `.astype(str)` uses it: `NaN` prints as
`"nan"`. (Numeric cells print via the rational's repr; Python would print
the float repr instead, but no claim stringifies a numeric cell.) -/
def astypeStr : Cell → String
  | .str s => s
  | .num q => toString q
  | .missing => "nan"

/-- Wrap an optional number back into a cell (`NaN`/`NaT` for `none`). -/
def ocell : Option ℚ → Cell
  | some q => .num q
  | none => .missing

/-! ### The pipeline stages of `load_log_file` (lines 51-145)

`load_log_file` is modelled from the point where the CSV has been read
into a DataFrame; the file dialog and `pd.read_csv` are outside the model.
Stages that can raise return `Except`. -/

def isMissingCell : Cell → Bool
  | .missing => true
  | _ => false

/-- `df.dropna(axis=1, how='all')` (line 54): drop columns whose cells are
all missing. A zero-row table drops every column (vacuous `all`). -/
def dropEmpty (t : Table) : Table :=
  ⟨t.nRows, t.cols.filter (fun c => !(c.values.all isMissingCell))⟩

/-- Number of fields `Series.str.split(' ')` produces for one cell
(non-strings give `NaN`, i.e. no fields). -/
def numParts : Cell → Nat
  | .str s => (splitOnChar ' ' s.toList).length
  | _ => 0

/-- Field `i` of `Series.str.split(' ', expand=True)` for one cell. -/
def splitPart (c : Cell) (i : Nat) : Cell :=
  match c with
  | .str s =>
    match (splitOnChar ' ' s.toList).get? i with
    | some p => .str (String.mk p)
    | none => .missing
  | _ => .missing

/-- Lines 57-61: split a combined `GPS` column into `GPS.Latitude` and
`GPS.Longitude` and drop `GPS`. `gps_split[k]` raises `KeyError` when the
expanded frame has no column `k`: column 0 needs at least one row, column 1
needs some row with at least two fields. -/
def gpsSplit (t : Table) : Except String Table :=
  if hasCol t "GPS" then
    if (getColD t "GPS").isEmpty then .error "KeyError: 0"
    else if (getColD t "GPS").all (fun c => decide (numParts c < 2)) then
      .error "KeyError: 1"
    else
      .ok (dropCol
        (setCol
          (setCol t "GPS.Latitude"
            ((getColD t "GPS").map (fun c => splitPart c 0)))
          "GPS.Longitude" ((getColD t "GPS").map (fun c => splitPart c 1)))
        "GPS")
  else .ok t

/-- `Series.mean()`: NaN-skipping arithmetic mean. (If every value is
missing pandas would give `NaN`; in this model that case yields `0/0 = 0`.
It is unreachable through the pipeline for the all-`Cell.missing` column,
which `dropEmpty` removes first.) -/
def nanMean (l : List (Option ℚ)) : ℚ :=
  let v := l.filterMap id
  v.sum / (v.length : ℚ)

/-- Lines 64-77: convert `GPS.Longitude` / `GPS.Latitude` with
`astype(float)` (raising on unparsable text), centre on the NaN-skipping
means, and write planar offsets `GPS.X(m)` / `GPS.Y(m)`. The pyproj `aeqd`
projection itself is an external C library, abstracted as the parameter
`projQ lat0 lon0 lat lon`; its geometry is modelled separately over `ℝ`
(`aeqdProj` below) for the numerical claim. -/
def gpsProject (projQ : ℚ → ℚ → ℚ → ℚ → ℚ × ℚ) (t : Table) :
    Except String (Table × String) :=
  if hasCol t "GPS.Longitude" && hasCol t "GPS.Latitude" then
    match astypeFloatCol (getColD t "GPS.Longitude") with
    | .error e => .error e
    | .ok lons =>
      match astypeFloatCol (getColD t "GPS.Latitude") with
      | .error e => .error e
      | .ok lats =>
        let lon0 := nanMean lons
        let lat0 := nanMean lats
        let xys := List.zipWith (fun lo la =>
          match lo, la with
          | some lo, some la =>
            let p := projQ lat0 lon0 la lo
            ((Cell.num p.1, Cell.num p.2) : Cell × Cell)
          | _, _ => ((Cell.missing, Cell.missing) : Cell × Cell)) lons lats
        .ok (setCol (setCol t "GPS.X(m)" (xys.map Prod.fst))
          "GPS.Y(m)" (xys.map Prod.snd), "Contains GPS data.\n")
  else .ok (t, "No GPS data found.\n")

/-- Lines 89-105: guarantee a `Time` column. With a `Time` column present,
`re.match` is applied to `df['Time'].iloc[0]` — raising `IndexError` on an
empty frame and `TypeError` on a non-string cell — and on a first-row
pattern failure `'12:' + df['Time'].astype(str)` rewrites every row.
Without one, synthesized times start at 12:00:00 with 1-second steps. -/
def ensureTime (t : Table) : Except String (Table × String) :=
  if hasCol t "Time" then
    match (getColD t "Time").head? with
    | some (.str s) =>
      if timePat s then .ok (t, "")
      else
        .ok (setCol t "Time"
          ((getColD t "Time").map (fun c => .str ("12:" ++ astypeStr c))), "")
    | some _ => .error "TypeError: expected string or bytes-like object"
    | none => .error "IndexError: single positional indexer is out-of-bounds"
  else
    .ok (setCol t "Time" ((List.range t.nRows).map (fun i => .str (genTime i))),
      "No time data found.\n")

/-- Lines 107-113: guarantee a `Date` column by repeating the current
calendar date. -/
def ensureDate (today : CDate) (t : Table) : Table × String :=
  if hasCol t "Date" then (t, "")
  else (setCol t "Date" (List.replicate t.nRows (.str (fmtDate today))),
    "No date data found.\n")

/-- Line 117-119: `pd.to_datetime(df['Date'].astype(str) + ' ' +
df['Time'].astype(str), errors='coerce')`, row by row. -/
def mkDTs (t : Table) : List (Option ℚ) :=
  List.zipWith (fun d c => parseDateTime (astypeStr d ++ " " ++ astypeStr c))
    (getColD t "Date") (getColD t "Time")

/-- Missing-propagating subtraction (`Timestamp - NaT = NaT`, etc.). -/
def osub : Option ℚ → Option ℚ → Option ℚ
  | some a, some b => some (a - b)
  | _, _ => none

/-- Lines 122-127: if every `DateTime` is `NaT`, `ElapsedTime` is set to
an all-missing column; otherwise it is `(DateTime - DateTime.iloc[0])
.dt.total_seconds()`, whose rows are `NaN` wherever either operand is. -/
def computeElapsed (dts : List (Option ℚ)) : List (Option ℚ) :=
  if dts.all Option.isNone then dts.map (fun _ => none)
  else dts.map (fun d => osub d (dts.headD none))

/-- Lines 117-127 on a table whose `Date` and `Time` columns are already
guaranteed: write `DateTime` and `ElapsedTime`. -/
def finishTime (t : Table) : Table :=
  let dts := mkDTs t
  setCol (setCol t "DateTime" (dts.map ocell)) "ElapsedTime"
    ((computeElapsed dts).map ocell)

/-- Lines 85-127, the whole time-reconstruction stage: a pass-through when
`DateTime` already exists. -/
def timeReconstruct (today : CDate) (t : Table) :
    Except String (Table × String) :=
  if hasCol t "DateTime" then .ok (t, "")
  else
    match ensureTime t with
    | .error e => .error e
    | .ok (t1, s1) =>
      let p := ensureDate today t1
      .ok (finishTime p.1, s1 ++ p.2)

/-- Elementwise float multiplication: `NaN` in either operand propagates.
(Multiplying text cells would raise in Python; the pipeline only forms
this product over numeric telemetry columns and no claim exercises text
operands.) -/
def cellMul : Cell → Cell → Cell
  | .num a, .num b => .num (a * b)
  | _, _ => .missing

/-- Lines 130-132: `df['Power (W)'] = df['VFAS(V)'] * df['Current(A)']`
when both columns exist. -/
def powerStage (t : Table) : Table × String :=
  if hasCol t "VFAS(V)" && hasCol t "Current(A)" then
    (setCol t "Power (W)"
      (List.zipWith cellMul (getColD t "VFAS(V)") (getColD t "Current(A)")),
     "Generated 'Power (W)' data.\n")
  else (t, "")

/-- `re.match(r"LiPo\d+\(V\)", col)`: `re.match` anchors only at the start
of the string, so this is a PREFIX match — trailing characters after
`(V)` are allowed. -/
def lipoMatch (s : String) : Bool :=
  match s.toList with
  | 'L' :: 'i' :: 'P' :: 'o' :: rest =>
    let r := chompDigits rest
    decide (1 ≤ r.1) &&
      match r.2 with
      | '(' :: 'V' :: ')' :: _ => true
      | _ => false
  | _ => false

/-- The spec's reading of the same pattern: the WHOLE column name is
`LiPo`, one or more digits, `(V)` — nothing after. Used to compare the
spec's wording against the source's prefix semantics. -/
def lipoFullMatchSpec (s : String) : Bool :=
  match s.toList with
  | 'L' :: 'i' :: 'P' :: 'o' :: rest =>
    let r := chompDigits rest
    decide (1 ≤ r.1) &&
      match r.2 with
      | ['(', 'V', ')'] => true
      | _ => false
  | _ => false

/-- `df[lipo_cols]`'s column list (line 135-136), in table order. -/
def lipoCols (t : Table) : List Col :=
  t.cols.filter (fun c => lipoMatch c.name)

/-- `DataFrame.sum(axis=1)` summand for one cell: NaN counts as zero.
(The pipeline only sums numeric `LiPoN(V)` telemetry columns; text cells
are not exercised by any claim.) -/
def toNumZero : Cell → ℚ
  | .num q => q
  | _ => 0

/-- Lines 134-139: row-wise sum of all `LiPo`-matching columns into
`LiPo Total (V)`, only when at least one such column exists. -/
def lipoStage (t : Table) : Table × String :=
  if (lipoCols t).isEmpty then (t, "")
  else
    (setCol t "LiPo Total (V)" ((List.range t.nRows).map
      (fun i => Cell.num (((lipoCols t).map
        (fun c => toNumZero (c.values.getD i Cell.missing))).sum))),
     "Generated 'LiPo Total (V)' data.\n")

/-- Strict code-point lexicographic order on text, exactly how Python
compares `str` values (case-sensitive, ordinal). -/
def strLtCh : List Char → List Char → Bool
  | [], [] => false
  | [], _ :: _ => true
  | _ :: _, [] => false
  | a :: as2, b :: bs =>
    if a.toNat < b.toNat then true
    else if b.toNat < a.toNat then false
    else strLtCh as2 bs

/-- The matching non-strict order. -/
def strLeCh (a b : List Char) : Bool := !(strLtCh b a)

/-- Line 142: `df = df[sorted(df.columns)]` — Python's `sorted` on
strings is an ascending stable sort by code-point order. -/
def sortCols (t : Table) : Table :=
  ⟨t.nRows, List.insertionSort
    (fun a b : Col => strLeCh a.name.toList b.name.toList = true) t.cols⟩

/-- Lines 51-145 of `load_log_file`, from the freshly read DataFrame to
the returned `(df, import_status)`. The pyproj projection is the `projQ`
parameter and `datetime.now()`'s date is the `today` parameter. -/
def loadLogFile (projQ : ℚ → ℚ → ℚ → ℚ → ℚ × ℚ) (today : CDate) (t : Table) :
    Except String (Table × String) :=
  match gpsSplit (dropEmpty t) with
  | .error e => .error e
  | .ok t2 =>
    match gpsProject projQ t2 with
    | .error e => .error e
    | .ok (t3, s1) =>
      match timeReconstruct today t3 with
      | .error e => .error e
      | .ok (t4, s2) =>
        .ok (sortCols (lipoStage (powerStage t4).1).1,
          s1 ++ s2 ++ (powerStage t4).2 ++ (lipoStage (powerStage t4).1).2)

/-- A trivial stand-in projection, used to instantiate `projQ` in closed
witnesses whose tables have no GPS columns. -/
def projTriv : ℚ → ℚ → ℚ → ℚ → ℚ × ℚ := fun _ _ _ _ => (0, 0)

/-! ### The azimuthal-equidistant projection over `ℝ`

`pyproj.Proj(proj='aeqd', lat_0=lat0, lon_0=lon0, datum='WGS84')` maps a
point to planar offsets `x = d sin α`, `y = d cos α`, where `d` is the
geodesic distance from the centre and `α` the forward azimuth. For the
numerical claim about the centroid the geometry is modelled on a sphere
(exact WGS84 geodesics refine `d`, but any geodesic distance vanishes at
coincident points, which is all the claim uses). -/

/-- Degrees to radians (pyproj takes degrees). -/
noncomputable def rad (x : ℝ) : ℝ := x * (Real.pi / 180)

/-- Great-circle central angle between centre and point (degrees in,
radians out). -/
noncomputable def centralAngle (lat0 lon0 lat lon : ℝ) : ℝ :=
  Real.arccos (Real.sin (rad lat0) * Real.sin (rad lat) +
    Real.cos (rad lat0) * Real.cos (rad lat) * Real.cos (rad lon - rad lon0))

noncomputable def earthRadius : ℝ := 6371000

/-- Forward azimuth from the centre to the point (spherical formula; the
quadrant correction of `atan2` is irrelevant here because the claim only
evaluates the projection where the distance factor vanishes). -/
noncomputable def azimuth (lat0 lon0 lat lon : ℝ) : ℝ :=
  Real.arctan ((Real.sin (rad lon - rad lon0) * Real.cos (rad lat)) /
    (Real.cos (rad lat0) * Real.sin (rad lat) -
      Real.sin (rad lat0) * Real.cos (rad lat) * Real.cos (rad lon - rad lon0)))

/-- The forward aeqd projection: metre offsets from the centre. -/
noncomputable def aeqdProj (lat0 lon0 lat lon : ℝ) : ℝ × ℝ :=
  let d := earthRadius * centralAngle lat0 lon0 lat lon
  (d * Real.sin (azimuth lat0 lon0 lat lon),
   d * Real.cos (azimuth lat0 lon0 lat lon))

/-- `Series.mean()` over `ℝ` for fully present columns. -/
noncomputable def meanR (l : List ℝ) : ℝ := l.sum / (l.length : ℝ)

/-- Lines 68-75 of `load_log_file` over `ℝ`: centre the projection on the
column means and project every row. -/
noncomputable def gpsProjectRows (lats lons : List ℝ) : List (ℝ × ℝ) :=
  List.zipWith (fun la lo => aeqdProj (meanR lats) (meanR lons) la lo)
    lats lons


/-- `"pat" in s` for the status string: some drop of `s` starts with
`pat`. -/
def containsSubstr (s pat : String) : Bool :=
  (List.range (s.toList.length + 1)).any
    (fun i => pat.toList.isPrefixOf (s.toList.drop i))

/-! ### Helper lemmas about lookups and stage framing -/

theorem beqString_comm (a b : String) : (a == b) = (b == a) := by
  by_cases h : a = b
  · subst h; rfl
  · have h1 : (a == b) = false := by simpa using h
    have h2 : (b == a) = false := by
      simpa using fun e => h e.symm
    rw [h1, h2]

theorem findVals_cons_pos (a : Col) (l : List Col) (n : String)
    (ha : (a.name == n) = true) : findVals (a :: l) n = some a.values := by
  simp [findVals, findCol, ha]

theorem findVals_cons_neg (a : Col) (l : List Col) (n : String)
    (ha : (a.name == n) = false) : findVals (a :: l) n = findVals l n := by
  simp [findVals, findCol, ha]

theorem names_replaceCol (l : List Col) (n : String) (vs : List Cell) :
    (replaceCol l n vs).map Col.name = l.map Col.name := by
  induction l with
  | nil => rfl
  | cons a l ih =>
    show (if (a.name == n) = true then (⟨n, vs⟩ : Col) else a).name
        :: (replaceCol l n vs).map Col.name = a.name :: l.map Col.name
    rw [ih]
    by_cases ha : (a.name == n) = true
    · rw [if_pos ha]
      have hae : n = a.name := by
        have := ha
        simp at this
        exact this.symm
      rw [← hae]
    · rw [if_neg ha]

theorem anyName_replaceCol (l : List Col) (n m : String) (vs : List Cell) :
    anyName (replaceCol l n vs) m = anyName l m := by
  induction l with
  | nil => rfl
  | cons a l ih =>
    show (((if (a.name == n) = true then (⟨n, vs⟩ : Col) else a).name == m)
        || anyName (replaceCol l n vs) m) = ((a.name == m) || anyName l m)
    rw [ih]
    by_cases ha : (a.name == n) = true
    · rw [if_pos ha]
      have hae : n = a.name := by
        have := ha
        simp at this
        exact this.symm
      rw [← hae]
    · rw [if_neg ha]

theorem findVals_replaceCol_self (l : List Col) (n : String) (vs : List Cell)
    (h : anyName l n = true) : findVals (replaceCol l n vs) n = some vs := by
  induction l with
  | nil => simp [anyName] at h
  | cons a l ih =>
    show findVals ((if (a.name == n) = true then (⟨n, vs⟩ : Col) else a) ::
      replaceCol l n vs) n = some vs
    by_cases ha : (a.name == n) = true
    · rw [if_pos ha, findVals_cons_pos _ _ _ (by simp)]
    · rw [if_neg ha, findVals_cons_neg _ _ _ (by simpa using ha)]
      rw [anyName, Bool.or_eq_true] at h
      rcases h with h | h
      · exact absurd h ha
      · exact ih h

theorem findVals_append_single_self (l : List Col) (n : String) (vs : List Cell)
    (h : anyName l n = false) : findVals (l ++ [⟨n, vs⟩]) n = some vs := by
  induction l with
  | nil => exact findVals_cons_pos _ _ _ (by simp)
  | cons a l ih =>
    rw [anyName, Bool.or_eq_false_iff] at h
    rw [List.cons_append, findVals_cons_neg _ _ _ h.1]
    exact ih h.2

theorem findVals_replaceCol_ne (l : List Col) (n m : String) (vs : List Cell)
    (h : m ≠ n) : findVals (replaceCol l n vs) m = findVals l m := by
  induction l with
  | nil => rfl
  | cons a l ih =>
    show findVals ((if (a.name == n) = true then (⟨n, vs⟩ : Col) else a) ::
      replaceCol l n vs) m = _
    by_cases ha : (a.name == n) = true
    · have hae : a.name = n := by simpa using ha
      have ham : (a.name == m) = false := by
        simp [hae]
        intro he
        exact h he.symm
      have hnm : ((n : String) == m) = false := by
        simp
        intro he
        exact h he.symm
      rw [if_pos ha, findVals_cons_neg _ _ _ (by simpa using hnm),
        findVals_cons_neg _ _ _ ham]
      exact ih
    · rw [if_neg ha]
      cases ham : a.name == m with
      | true =>
        rw [findVals_cons_pos _ _ _ ham, findVals_cons_pos _ _ _ ham]
      | false =>
        rw [findVals_cons_neg _ _ _ ham, findVals_cons_neg _ _ _ ham]
        exact ih

theorem findVals_append_single_ne (l : List Col) (n m : String) (vs : List Cell)
    (h : m ≠ n) : findVals (l ++ [⟨n, vs⟩]) m = findVals l m := by
  induction l with
  | nil =>
    have hnm : ((n : String) == m) = false := by
      simp
      intro he
      exact h he.symm
    rw [List.nil_append, findVals_cons_neg _ _ _ hnm]
  | cons a l ih =>
    rw [List.cons_append]
    cases ham : a.name == m with
    | true => rw [findVals_cons_pos _ _ _ ham, findVals_cons_pos _ _ _ ham]
    | false =>
      rw [findVals_cons_neg _ _ _ ham, findVals_cons_neg _ _ _ ham]
      exact ih

theorem getCol_setCol_self (t : Table) (n : String) (vs : List Cell) :
    getCol (setCol t n vs) n = some vs := by
  unfold setCol
  by_cases h : hasCol t n
  · simp only [h, if_pos]
    exact findVals_replaceCol_self t.cols n vs h
  · rw [if_neg h]
    exact findVals_append_single_self t.cols n vs (by simpa using h)

theorem getCol_setCol_ne (t : Table) (n m : String) (vs : List Cell)
    (h : m ≠ n) : getCol (setCol t n vs) m = getCol t m := by
  unfold setCol
  by_cases hc : hasCol t n
  · simp only [hc, if_pos]
    exact findVals_replaceCol_ne t.cols n m vs h
  · rw [if_neg hc]
    exact findVals_append_single_ne t.cols n m vs h

theorem anyName_append_single (l : List Col) (n m : String) (vs : List Cell) :
    anyName (l ++ [⟨n, vs⟩]) m = (anyName l m || (m == n)) := by
  induction l with
  | nil =>
    show (((n : String) == m) || false) = (false || (m == n))
    rw [Bool.or_false, Bool.false_or, beqString_comm]
  | cons a l ih =>
    show ((a.name == m) || anyName (l ++ [⟨n, vs⟩]) m)
        = (((a.name == m) || anyName l m) || (m == n))
    rw [ih, Bool.or_assoc]

theorem hasCol_setCol (t : Table) (n m : String) (vs : List Cell) :
    hasCol (setCol t n vs) m = (hasCol t m || m == n) := by
  unfold setCol
  by_cases hc : hasCol t n
  · simp only [hc, if_pos]
    show anyName (replaceCol t.cols n vs) m = _
    rw [anyName_replaceCol]
    show hasCol t m = (hasCol t m || m == n)
    by_cases hm : m = n
    · subst hm
      simp [hc]
    · simp [hm]
  · rw [if_neg hc]
    exact anyName_append_single t.cols n m vs

theorem getCol_dropCol_ne (t : Table) (n m : String) (h : m ≠ n) :
    getCol (dropCol t n) m = getCol t m := by
  show findVals (t.cols.filter _) m = findVals t.cols m
  induction t.cols with
  | nil => rfl
  | cons a l ih =>
    rw [List.filter_cons]
    by_cases ha : (a.name == n) = true
    · have hae : a.name = n := by simpa using ha
      have ham : (a.name == m) = false := by
        simp [hae]
        intro he
        exact h he.symm
      simp only [ha, Bool.not_true, Bool.false_eq_true, if_neg, not_false_iff]
      rw [findVals_cons_neg _ _ _ ham]
      exact ih
    · have ha2 : (!(a.name == n)) = true := by
        simpa using ha
      simp only [ha2, if_pos]
      cases ham : a.name == m with
      | true => rw [findVals_cons_pos _ _ _ ham, findVals_cons_pos _ _ _ ham]
      | false =>
        rw [findVals_cons_neg _ _ _ ham, findVals_cons_neg _ _ _ ham]
        exact ih

theorem hasCol_dropCol (t : Table) (n m : String) :
    hasCol (dropCol t n) m = (hasCol t m && !(m == n)) := by
  show anyName (t.cols.filter _) m = _
  unfold hasCol
  induction t.cols with
  | nil => simp [anyName]
  | cons a l ih =>
    rw [List.filter_cons]
    by_cases ha : (a.name == n) = true
    · have hae : a.name = n := by simpa using ha
      simp only [ha, Bool.not_true, Bool.false_eq_true, if_neg, not_false_iff]
      rw [ih, anyName]
      by_cases ham : (a.name == m) = true
      · have hmn : (m == n) = true := by
          have hame : a.name = m := by simpa using ham
          simp [← hame, hae]
        simp [hmn, ham]
      · simp [ham]
    · have ha2 : (!(a.name == n)) = true := by
        simpa using ha
      simp only [ha2, if_pos]
      show ((a.name == m) || anyName (l.filter _) m) = _
      rw [ih, anyName]
      by_cases ham : (a.name == m) = true
      · have hmn : (m == n) = false := by
          have hame : a.name = m := by simpa using ham
          simp [← hame]
          intro he
          exact ha (by simpa using he)
        simp [ham, hmn]
      · simp [ham, Bool.and_or_distrib_right]

/-- If the first column named `c.name` passes the filter, filtering
preserves the lookup result (filtering keeps relative order). -/
theorem findVals_filter_of_find (p : Col → Bool) (l : List Col) (c : Col)
    (hf : findCol l c.name = some c) (hp : p c = true) :
    findVals (l.filter p) c.name = some c.values := by
  induction l with
  | nil => simp [findCol] at hf
  | cons a l ih =>
    rw [List.filter_cons]
    by_cases ha : (a.name == c.name) = true
    · rw [findCol, if_pos ha] at hf
      simp only [Option.some.injEq] at hf
      subst hf
      simp only [hp, if_pos]
      exact findVals_cons_pos _ _ _ ha
    · rw [findCol, if_neg ha] at hf
      by_cases hpa : p a = true
      · simp only [hpa, if_pos]
        rw [findVals_cons_neg _ _ _ (by simpa using ha)]
        exact ih hf
      · simp only [hpa, Bool.false_eq_true, if_neg, not_false_iff]
        exact ih hf

theorem anyName_filter_false (p : Col → Bool) (l : List Col) (m : String)
    (h : anyName l m = false) : anyName (l.filter p) m = false := by
  induction l with
  | nil => rfl
  | cons a l ih =>
    rw [anyName, Bool.or_eq_false_iff] at h
    rw [List.filter_cons]
    by_cases hpa : p a = true
    · simp only [hpa, if_pos]
      rw [anyName, h.1, ih h.2]
      rfl
    · simp only [hpa, Bool.false_eq_true, if_neg, not_false_iff]
      exact ih h.2


theorem findCol_name (l : List Col) (n : String) (c : Col)
    (h : findCol l n = some c) : c.name = n := by
  induction l with
  | nil => simp [findCol] at h
  | cons a l ih =>
    rw [findCol] at h
    by_cases ha : (a.name == n) = true
    · rw [if_pos ha] at h
      cases h
      simpa using ha
    · rw [if_neg ha] at h
      exact ih h

theorem findCol_mem (l : List Col) (n : String) (c : Col)
    (h : findCol l n = some c) : c ∈ l := by
  induction l with
  | nil => simp [findCol] at h
  | cons a l ih =>
    rw [findCol] at h
    by_cases ha : (a.name == n) = true
    · rw [if_pos ha] at h
      cases h
      exact List.mem_cons_self _ _
    · rw [if_neg ha] at h
      exact List.mem_cons_of_mem a (ih h)

theorem hasCol_eq_isSome (t : Table) (n : String) :
    hasCol t n = (getCol t n).isSome := by
  show anyName t.cols n = (findVals t.cols n).isSome
  induction t.cols with
  | nil => rfl
  | cons a l ih =>
    rw [anyName]
    by_cases ha : (a.name == n) = true
    · rw [findVals_cons_pos _ _ _ ha, ha, Bool.true_or]
      rfl
    · rw [findVals_cons_neg _ _ _ (by simpa using ha), ← ih]
      rw [Bool.not_eq_true] at ha
      rw [ha, Bool.false_or]

theorem anyName_eq_true_iff (l : List Col) (n : String) :
    anyName l n = true ↔ ∃ c ∈ l, c.name = n := by
  induction l with
  | nil => simp [anyName]
  | cons a l ih =>
    rw [anyName, Bool.or_eq_true, ih]
    constructor
    · rintro (h | ⟨c, hc, he⟩)
      · exact ⟨a, List.mem_cons_self a l, by simpa using h⟩
      · exact ⟨c, List.mem_cons_of_mem a hc, he⟩
    · rintro ⟨c, hc, he⟩
      rcases List.mem_cons.mp hc with hc | hc
      · subst hc
        left
        simpa using he
      · right
        exact ⟨c, hc, he⟩

theorem nRows_setCol (t : Table) (n : String) (vs : List Cell) :
    (setCol t n vs).nRows = t.nRows := by
  unfold setCol
  by_cases h : hasCol t n
  · rw [if_pos h]
  · rw [if_neg h]

theorem getCol_some_mem (t : Table) (n : String) (vs : List Cell)
    (h : getCol t n = some vs) :
    ∃ c ∈ t.cols, c.name = n ∧ c.values = vs := by
  unfold getCol findVals at h
  cases hf : findCol t.cols n with
  | none => rw [hf] at h; cases h
  | some c =>
    rw [hf] at h
    simp only [Option.map_some', Option.some.injEq] at h
    exact ⟨c, findCol_mem _ _ _ hf, findCol_name _ _ _ hf, h⟩

theorem getCol_length (t : Table) (n : String) (vs : List Cell)
    (hu : UniformLen t) (h : getCol t n = some vs) :
    vs.length = t.nRows := by
  obtain ⟨c, hc, _, hv⟩ := getCol_some_mem t n vs h
  rw [← hv]
  exact hu c hc

/-- A found column that survives a filter is still found (used for
`dropna` column preservation). -/
theorem getCol_filter_of_some (p : Col → Bool) (t : Table) (n : String)
    (vs : List Cell) (h : getCol t n = some vs)
    (hp : ∀ c ∈ t.cols, c.name = n → c.values = vs → p c = true) :
    getCol (⟨t.nRows, t.cols.filter p⟩ : Table) n = some vs := by
  unfold getCol findVals at h ⊢
  cases hf : findCol t.cols n with
  | none => rw [hf] at h; cases h
  | some c =>
    rw [hf] at h
    simp only [Option.map_some', Option.some.injEq] at h
    have hn := findCol_name _ _ _ hf
    have := findVals_filter_of_find p t.cols c (by rw [hn]; exact hf)
      (hp c (findCol_mem _ _ _ hf) hn h)
    rw [hn, h] at this
    exact this

theorem centralAngle_self (lat0 lon0 : ℝ) :
    centralAngle lat0 lon0 lat0 lon0 = 0 := by
  unfold centralAngle
  rw [sub_self, Real.cos_zero, mul_one]
  have h : Real.sin (rad lat0) * Real.sin (rad lat0) +
      Real.cos (rad lat0) * Real.cos (rad lat0) = 1 := by
    have := Real.sin_sq_add_cos_sq (rad lat0)
    nlinarith [this]
  rw [h, Real.arccos_one]

theorem aeqdProj_self (lat0 lon0 : ℝ) : aeqdProj lat0 lon0 lat0 lon0 = (0, 0) := by
  unfold aeqdProj
  rw [centralAngle_self, mul_zero]
  simp

theorem getD_zipWith {α β γ : Type} (f : α → β → γ) (a0 : α) (b0 : β)
    (c0 : γ) : ∀ (as2 : List α) (bs : List β) (i : Nat),
    i < (List.zipWith f as2 bs).length →
    (List.zipWith f as2 bs).getD i c0 = f (as2.getD i a0) (bs.getD i b0)
  | [], _, _, h => by simp at h
  | _ :: _, [], _, h => by simp at h
  | a :: as2, b :: bs, 0, _ => rfl
  | a :: as2, b :: bs, i + 1, h => by
    rw [List.zipWith_cons_cons]
    show (List.zipWith f as2 bs).getD i c0 = _
    rw [List.zipWith_cons_cons] at h
    exact getD_zipWith f a0 b0 c0 as2 bs i (by simpa using h)

theorem getD_map {α β : Type} (f : α → β) (a0 : α) (b0 : β) :
    ∀ (l : List α) (i : Nat), i < l.length →
    (l.map f).getD i b0 = f (l.getD i a0)
  | [], _, h => by simp at h
  | a :: l, 0, _ => rfl
  | a :: l, i + 1, h => by
    rw [List.map_cons]
    show (l.map f).getD i b0 = f (l.getD i a0)
    exact getD_map f a0 b0 l i (by simpa using h)

theorem computeElapsed_of_ex_some (dts : List (Option ℚ))
    (h : ∃ x ∈ dts, x.isSome) :
    computeElapsed dts = dts.map (fun d => osub d (dts.headD none)) := by
  unfold computeElapsed
  rw [if_neg]
  intro hall
  obtain ⟨x, hx, hs⟩ := h
  rw [List.all_eq_true] at hall
  have := hall x hx
  rw [Option.isNone_iff_eq_none] at this
  rw [this] at hs
  cases hs

theorem computeElapsed_none (dts : List (Option ℚ)) (i : Nat)
    (hi : i < dts.length) (h : dts.getD i none = none) :
    (computeElapsed dts).getD i none = none := by
  unfold computeElapsed
  by_cases hall : dts.all Option.isNone
  · rw [if_pos hall, getD_map _ none _ _ _ hi]
  · rw [if_neg hall, getD_map _ none _ _ _ hi, h]
    rfl

theorem computeElapsed_head_zero (dts : List (Option ℚ))
    (h : (dts.headD none).isSome) :
    (computeElapsed dts).headD none = some 0 := by
  cases dts with
  | nil => cases h
  | cons d l =>
    have hd : d.isSome := h
    rw [computeElapsed_of_ex_some _ ⟨d, List.mem_cons_self _ _, hd⟩]
    obtain ⟨q, hq⟩ := Option.isSome_iff_exists.mp hd
    subst hq
    show osub (some q) (some q) = some 0
    show some (q - q) = some 0
    rw [sub_self]

theorem computeElapsed_all_none (dts : List (Option ℚ))
    (h : ∀ x ∈ dts, x = none) :
    ∀ y ∈ computeElapsed dts, y = none := by
  intro y hy
  unfold computeElapsed at hy
  by_cases hall : dts.all Option.isNone
  · rw [if_pos hall] at hy
    obtain ⟨x, _, hx⟩ := List.mem_map.mp hy
    exact hx.symm
  · rw [if_neg hall] at hy
    obtain ⟨x, hx, he⟩ := List.mem_map.mp hy
    rw [h x hx] at he
    exact he.symm

/-! ### The claims -/

/-- **C4.** For every table that already carries a `DateTime` column, the
Time Reconstructor stage (lines 85-127) is a pass-through: it returns the
table unchanged — so no `Date`, `Time`, `DateTime` or `ElapsedTime` value
is modified — and re-running the pipeline's time reconstruction on an
already-normalized export is idempotent. -/
theorem claim_C4_datetime_passthrough (today : CDate) (t : Table)
    (h : hasCol t "DateTime" = true) :
    timeReconstruct today t = .ok (t, "") := by
  unfold timeReconstruct
  rw [h]
  rfl

theorem claim_C4_witness :
    timeReconstruct ⟨2026, 10, 12⟩
        ⟨1, [⟨"DateTime", [Cell.num 0]⟩, ⟨"Alt(m)", [Cell.num 7]⟩]⟩ =
      .ok (⟨1, [⟨"DateTime", [Cell.num 0]⟩, ⟨"Alt(m)", [Cell.num 7]⟩]⟩, "") :=
  claim_C4_datetime_passthrough ⟨2026, 10, 12⟩
    ⟨1, [⟨"DateTime", [Cell.num 0]⟩, ⟨"Alt(m)", [Cell.num 7]⟩]⟩ (by decide)

/-- **C1.** For a table whose `Date` and `Time` columns have been
guaranteed (the state in which lines 117-127 run on every table that
lacked `DateTime`), the written `DateTime` column is the per-row parse of
`"<Date> <Time>"` and the written `ElapsedTime` column satisfies: rows
with missing `DateTime` are missing; if at least one row parsed,
`ElapsedTime[i] = DateTime[i] - DateTime[0]` in seconds for every row
(missing-propagating); `ElapsedTime[0] = 0` whenever `DateTime[0]`
parsed; and if zero rows parsed the column is entirely missing. -/
theorem claim_C1_elapsed_from_first (t2 : Table) :
    getCol (finishTime t2) "DateTime" = some ((mkDTs t2).map ocell) ∧
    getCol (finishTime t2) "ElapsedTime" =
      some ((computeElapsed (mkDTs t2)).map ocell) ∧
    (∀ i, i < (mkDTs t2).length → (mkDTs t2).getD i none = none →
      (computeElapsed (mkDTs t2)).getD i none = none) ∧
    ((∃ x ∈ mkDTs t2, x.isSome) → ∀ i, i < (mkDTs t2).length →
      (computeElapsed (mkDTs t2)).getD i none =
        osub ((mkDTs t2).getD i none) ((mkDTs t2).headD none)) ∧
    (((mkDTs t2).headD none).isSome →
      (computeElapsed (mkDTs t2)).headD none = some 0) ∧
    ((∀ x ∈ mkDTs t2, x = none) →
      ∀ y ∈ computeElapsed (mkDTs t2), y = none) := by
  refine ⟨?_, ?_, ?_, ?_, ?_, ?_⟩
  · unfold finishTime
    rw [getCol_setCol_ne _ _ _ _ (by decide), getCol_setCol_self]
  · unfold finishTime
    rw [getCol_setCol_self]
  · exact computeElapsed_none (mkDTs t2)
  · intro hex i hi
    rw [computeElapsed_of_ex_some _ hex, getD_map _ none _ _ _ hi]
  · exact computeElapsed_head_zero (mkDTs t2)
  · exact computeElapsed_all_none (mkDTs t2)

theorem claim_C1_witness :
    (computeElapsed (mkDTs ⟨2,
        [⟨"Date", [Cell.str "2026-10-12", Cell.str "2026-10-12"]⟩,
         ⟨"Time", [Cell.str "12:00:00.0", Cell.str "12:00:01.0"]⟩]⟩)).headD
      none = some 0 ∧
    getCol (finishTime ⟨2,
        [⟨"Date", [Cell.str "2026-10-12", Cell.str "2026-10-12"]⟩,
         ⟨"Time", [Cell.str "12:00:00.0", Cell.str "12:00:01.0"]⟩]⟩)
      "ElapsedTime" = some [Cell.num 0, Cell.num 1] :=
  ⟨(claim_C1_elapsed_from_first ⟨2,
      [⟨"Date", [Cell.str "2026-10-12", Cell.str "2026-10-12"]⟩,
       ⟨"Time", [Cell.str "12:00:00.0", Cell.str "12:00:01.0"]⟩]⟩).2.2.2.2.1
    (by decide), by decide⟩

/-! ### Round-trip lemmas: the synthesized date/time strings parse back -/

theorem splitOnChar_of_not_mem (sep : Char) (xs : List Char) (h : sep ∉ xs) :
    splitOnChar sep xs = [xs] := by
  induction xs with
  | nil => rfl
  | cons c cs ih =>
    rw [splitOnChar]
    rw [List.mem_cons] at h
    push_neg at h
    rw [if_neg (fun he => h.1 he.symm), ih h.2]

theorem splitOnChar_append (sep : Char) (xs ys : List Char) (h : sep ∉ xs) :
    splitOnChar sep (xs ++ sep :: ys) = xs :: splitOnChar sep ys := by
  induction xs with
  | nil =>
    rw [List.nil_append, splitOnChar, if_pos rfl]
  | cons c cs ih =>
    rw [List.mem_cons] at h
    push_neg at h
    rw [List.cons_append, splitOnChar, if_neg (fun he => h.1 he.symm),
      ih h.2]

theorem digitChar_digit (k : Nat) (h : k < 10) :
    isDigitCh (digitChar k) = true := by
  interval_cases k <;> decide

theorem digitVal_digitChar (k : Nat) (h : k < 10) :
    digitVal (digitChar k) = k := by
  interval_cases k <;> decide

theorem natDigits_all_digits (n : Nat) :
    ∀ c ∈ natDigits n, isDigitCh c = true := by
  induction n using Nat.strong_induction_on with
  | _ n ih =>
    rw [natDigits]
    by_cases h : n < 10
    · rw [dif_pos h]
      intro c hc
      rw [List.mem_singleton] at hc
      subst hc
      exact digitChar_digit n h
    · rw [dif_neg h]
      intro c hc
      rcases List.mem_append.mp hc with hc | hc
      · exact ih (n / 10) (Nat.div_lt_self (by omega) (by omega)) c hc
      · rw [List.mem_singleton] at hc
        subst hc
        exact digitChar_digit _ (Nat.mod_lt _ (by omega))

theorem digit_ne_of_not_digit (c d : Char) (hc : isDigitCh c = true)
    (hd : isDigitCh d = false) : d ≠ c := by
  intro he
  rw [he, hc] at hd
  cases hd

theorem not_mem_digits (sep : Char) (hs : isDigitCh sep = false)
    (xs : List Char) (hx : ∀ c ∈ xs, isDigitCh c = true) : sep ∉ xs := by
  intro hm
  have := hx sep hm
  rw [this] at hs
  cases hs

theorem pad2_all_digits (n : Nat) : ∀ c ∈ pad2 n, isDigitCh c = true := by
  unfold pad2
  by_cases h : n < 10
  · rw [if_pos h]
    intro c hc
    rcases List.mem_cons.mp hc with hc | hc
    · subst hc; decide
    · exact natDigits_all_digits n c hc
  · rw [if_neg h]
    exact natDigits_all_digits n

theorem pad4_all_digits (n : Nat) : ∀ c ∈ pad4 n, isDigitCh c = true := by
  unfold pad4
  intro c hc
  split at hc <;> try split at hc
  all_goals try split at hc
  all_goals {
    first
    | exact natDigits_all_digits n c hc
    | (rcases List.mem_cons.mp hc with hc2 | hc2
       · subst hc2; decide
       · first
         | exact natDigits_all_digits n c hc2
         | (rcases List.mem_cons.mp hc2 with hc3 | hc3
            · subst hc3; decide
            · first
              | exact natDigits_all_digits n c hc3
              | (rcases List.mem_cons.mp hc3 with hc4 | hc4
                 · subst hc4; decide
                 · exact natDigits_all_digits n c hc4))) }

theorem natDigits_len1 (n : Nat) (h : n < 10) : (natDigits n).length = 1 := by
  rw [natDigits, dif_pos h]
  rfl

theorem natDigits_len2 (n : Nat) (h1 : 10 ≤ n) (h2 : n < 100) :
    (natDigits n).length = 2 := by
  rw [natDigits, dif_neg (by omega)]
  rw [List.length_append, natDigits_len1 _ (by omega)]
  rfl

theorem natDigits_len3 (n : Nat) (h1 : 100 ≤ n) (h2 : n < 1000) :
    (natDigits n).length = 3 := by
  rw [natDigits, dif_neg (by omega)]
  rw [List.length_append, natDigits_len2 _ (by omega) (by omega)]
  rfl

theorem natDigits_len4 (n : Nat) (h1 : 1000 ≤ n) (h2 : n < 10000) :
    (natDigits n).length = 4 := by
  rw [natDigits, dif_neg (by omega)]
  rw [List.length_append, natDigits_len3 _ (by omega) (by omega)]
  rfl

theorem pad2_length (n : Nat) (h : n < 100) : (pad2 n).length = 2 := by
  unfold pad2
  by_cases h1 : n < 10
  · rw [if_pos h1, List.length_cons, natDigits_len1 _ h1]
  · rw [if_neg h1]
    exact natDigits_len2 _ (by omega) h

theorem pad4_length (n : Nat) (h : n < 10000) : (pad4 n).length = 4 := by
  unfold pad4
  by_cases h1 : n < 10
  · rw [if_pos h1]
    simp [natDigits_len1 _ h1]
  · rw [if_neg h1]
    by_cases h2 : n < 100
    · rw [if_pos h2]
      simp [natDigits_len2 _ (by omega) h2]
    · rw [if_neg h2]
      by_cases h3 : n < 1000
      · rw [if_pos h3]
        simp [natDigits_len3 _ (by omega) h3]
      · rw [if_neg h3]
        exact natDigits_len4 _ (by omega) h

theorem digitsToNat_append_one (xs : List Char) (c : Char) :
    digitsToNat (xs ++ [c]) = digitsToNat xs * 10 + digitVal c := by
  unfold digitsToNat
  rw [List.foldl_append]
  rfl

theorem digitsToNat_natDigits (n : Nat) : digitsToNat (natDigits n) = n := by
  induction n using Nat.strong_induction_on with
  | _ n ih =>
    rw [natDigits]
    by_cases h : n < 10
    · rw [dif_pos h]
      have h1 : digitsToNat [digitChar n] = 0 * 10 + digitVal (digitChar n) := rfl
      rw [h1, digitVal_digitChar n h]
      omega
    · rw [dif_neg h]
      rw [digitsToNat_append_one,
        ih (n / 10) (Nat.div_lt_self (by omega) (by omega)),
        digitVal_digitChar _ (Nat.mod_lt _ (by omega))]
      omega

theorem digitsToNat_cons_zero (xs : List Char) :
    digitsToNat ('0' :: xs) = digitsToNat xs := rfl

theorem digitsToNat_pad2 (n : Nat) : digitsToNat (pad2 n) = n := by
  unfold pad2
  by_cases h : n < 10
  · rw [if_pos h, digitsToNat_cons_zero, digitsToNat_natDigits]
  · rw [if_neg h, digitsToNat_natDigits]

theorem digitsToNat_pad4 (n : Nat) : digitsToNat (pad4 n) = n := by
  unfold pad4
  by_cases h1 : n < 10
  · rw [if_pos h1, digitsToNat_cons_zero, digitsToNat_cons_zero,
      digitsToNat_cons_zero, digitsToNat_natDigits]
  · rw [if_neg h1]
    by_cases h2 : n < 100
    · rw [if_pos h2, digitsToNat_cons_zero, digitsToNat_cons_zero,
        digitsToNat_natDigits]
    · rw [if_neg h2]
      by_cases h3 : n < 1000
      · rw [if_pos h3, digitsToNat_cons_zero, digitsToNat_natDigits]
      · rw [if_neg h3, digitsToNat_natDigits]

theorem daysInMonth_le (y m : Nat) : daysInMonth y m ≤ 31 := by
  unfold daysInMonth
  split_ifs <;> omega

theorem fmtDate_toList (dt : CDate) :
    (fmtDate dt).toList =
      pad4 dt.year ++ ('-' :: (pad2 dt.month ++ ('-' :: pad2 dt.day))) := rfl

theorem parseDateCh_fmtDate (dt : CDate) (hy : dt.year < 10000)
    (hm1 : 1 ≤ dt.month) (hm2 : dt.month ≤ 12) (hd1 : 1 ≤ dt.day)
    (hd2 : dt.day ≤ daysInMonth dt.year dt.month) :
    parseDateCh (fmtDate dt).toList =
      some (daysFromCivil dt.year dt.month dt.day) := by
  rw [fmtDate_toList]
  unfold parseDateCh
  rw [splitOnChar_append _ _ _
      (not_mem_digits '-' (by decide) _ (pad4_all_digits _)),
    splitOnChar_append _ _ _
      (not_mem_digits '-' (by decide) _ (pad2_all_digits _)),
    splitOnChar_of_not_mem _ _
      (not_mem_digits '-' (by decide) _ (pad2_all_digits _))]
  show parseDate3 (pad4 dt.year) (pad2 dt.month) (pad2 dt.day) = _
  unfold parseDate3
  have l4 : (pad4 dt.year).length = 4 := pad4_length _ hy
  have lm : (pad2 dt.month).length = 2 := pad2_length _ (by omega)
  have ld : (pad2 dt.day).length = 2 :=
    pad2_length _ (by have := daysInMonth_le dt.year dt.month; omega)
  have a4 : (pad4 dt.year).all isDigitCh = true :=
    List.all_eq_true.mpr (pad4_all_digits _)
  have am : (pad2 dt.month).all isDigitCh = true :=
    List.all_eq_true.mpr (pad2_all_digits _)
  have ad : (pad2 dt.day).all isDigitCh = true :=
    List.all_eq_true.mpr (pad2_all_digits _)
  rw [l4, lm, ld, a4, am, ad]
  rw [if_pos (by decide)]
  rw [digitsToNat_pad4, digitsToNat_pad2, digitsToNat_pad2]
  rw [if_pos ⟨hm1, hm2, hd1, hd2⟩]

theorem genTime_toList (i : Nat) :
    (genTime i).toList =
      pad2 (((12 * 3600 + i) / 3600) % 24) ++
        (':' :: (pad2 (((12 * 3600 + i) % 3600) / 60) ++
          (':' :: (pad2 ((12 * 3600 + i) % 60) ++ ['.', '0', '0', '0'])))) := rfl

theorem parseTODCh_genTime (i : Nat) (hi : i < 43200) :
    parseTODCh (genTime i).toList = some (43200 + (i : ℚ)) := by
  rw [genTime_toList]
  unfold parseTODCh
  have hs3 : ':' ∉ pad2 ((12 * 3600 + i) % 60) ++ ['.', '0', '0', '0'] := by
    intro hm
    rcases List.mem_append.mp hm with hm | hm
    · exact not_mem_digits ':' (by decide) _ (pad2_all_digits _) hm
    · exact absurd hm (by decide)
  rw [splitOnChar_append _ _ _
      (not_mem_digits ':' (by decide) _ (pad2_all_digits _)),
    splitOnChar_append _ _ _
      (not_mem_digits ':' (by decide) _ (pad2_all_digits _)),
    splitOnChar_of_not_mem _ _ hs3]
  show parseTOD3 (pad2 (((12 * 3600 + i) / 3600) % 24))
    (pad2 (((12 * 3600 + i) % 3600) / 60))
    (pad2 ((12 * 3600 + i) % 60) ++ ['.', '0', '0', '0']) = _
  unfold parseTOD3
  have hh24 : ((12 * 3600 + i) / 3600) % 24 < 24 := Nat.mod_lt _ (by omega)
  have hm60 : ((12 * 3600 + i) % 3600) / 60 < 60 := by omega
  have hs60 : (12 * 3600 + i) % 60 < 60 := by omega
  have lh : (pad2 (((12 * 3600 + i) / 3600) % 24)).length = 2 :=
    pad2_length _ (by omega)
  have lm : (pad2 (((12 * 3600 + i) % 3600) / 60)).length = 2 :=
    pad2_length _ (by omega)
  have ls : (pad2 ((12 * 3600 + i) % 60)).length = 2 :=
    pad2_length _ (by omega)
  have ah : (pad2 (((12 * 3600 + i) / 3600) % 24)).all isDigitCh = true :=
    List.all_eq_true.mpr (pad2_all_digits _)
  have am : (pad2 (((12 * 3600 + i) % 3600) / 60)).all isDigitCh = true :=
    List.all_eq_true.mpr (pad2_all_digits _)
  have as2 : (pad2 ((12 * 3600 + i) % 60)).all isDigitCh = true :=
    List.all_eq_true.mpr (pad2_all_digits _)
  rw [lh, lm, ah, am]
  rw [if_pos (by decide)]
  rw [splitOnChar_append _ _ _
      (not_mem_digits '.' (by decide) _ (pad2_all_digits _)),
    splitOnChar_of_not_mem _ _ (by decide)]
  show (if (['0', '0', '0'] : List Char).isEmpty = true then none
    else parseTODSec (pad2 (((12 * 3600 + i) / 3600) % 24))
      (pad2 (((12 * 3600 + i) % 3600) / 60))
      (pad2 ((12 * 3600 + i) % 60)) ['0', '0', '0']) = _
  rw [if_neg (by decide)]
  unfold parseTODSec
  rw [ls, as2]
  rw [if_pos (by decide)]
  rw [digitsToNat_pad2, digitsToNat_pad2, digitsToNat_pad2]
  have hno : (12 * 3600 + i) / 3600 % 24 ≤ 23 := by omega
  rw [if_pos ⟨hno, by omega, by omega⟩]
  congr 1
  have h000 : digitsToNat ['0', '0', '0'] = 0 := rfl
  rw [h000]
  have hnat : (12 * 3600 + i) / 3600 % 24 * 3600 +
      (12 * 3600 + i) % 3600 / 60 * 60 + (12 * 3600 + i) % 60 =
      43200 + i := by omega
  rw [Nat.cast_zero, zero_div, add_zero]
  exact_mod_cast hnat

theorem parseDateTime_fmt_gen (dt : CDate) (hy : dt.year < 10000)
    (hm1 : 1 ≤ dt.month) (hm2 : dt.month ≤ 12) (hd1 : 1 ≤ dt.day)
    (hd2 : dt.day ≤ daysInMonth dt.year dt.month) (i : Nat)
    (hi : i < 43200) :
    parseDateTime (fmtDate dt ++ " " ++ genTime i) =
      some ((daysFromCivil dt.year dt.month dt.day : ℚ) * 86400 +
        (43200 + (i : ℚ))) := by
  unfold parseDateTime
  have hf : ' ' ∉ (fmtDate dt).toList := by
    rw [fmtDate_toList]
    intro hm
    rcases List.mem_append.mp hm with hm | hm
    · exact not_mem_digits ' ' (by decide) _ (pad4_all_digits _) hm
    · rcases List.mem_cons.mp hm with hm | hm
      · exact absurd hm (by decide)
      · rcases List.mem_append.mp hm with hm | hm
        · exact not_mem_digits ' ' (by decide) _ (pad2_all_digits _) hm
        · rcases List.mem_cons.mp hm with hm | hm
          · exact absurd hm (by decide)
          · exact not_mem_digits ' ' (by decide) _ (pad2_all_digits _) hm
  have hg : ' ' ∉ (genTime i).toList := by
    rw [genTime_toList]
    intro hm
    rcases List.mem_append.mp hm with hm | hm
    · exact not_mem_digits ' ' (by decide) _ (pad2_all_digits _) hm
    · rcases List.mem_cons.mp hm with hm | hm
      · exact absurd hm (by decide)
      · rcases List.mem_append.mp hm with hm | hm
        · exact not_mem_digits ' ' (by decide) _ (pad2_all_digits _) hm
        · rcases List.mem_cons.mp hm with hm | hm
          · exact absurd hm (by decide)
          · rcases List.mem_append.mp hm with hm | hm
            · exact not_mem_digits ' ' (by decide) _ (pad2_all_digits _) hm
            · exact absurd hm (by decide)
  have hl : (fmtDate dt ++ " " ++ genTime i).toList =
      (fmtDate dt).toList ++ ' ' :: (genTime i).toList := by
    show ((fmtDate dt ++ " ") ++ genTime i).data = _
    rw [String.data_append, String.data_append, List.append_assoc]
    rfl
  rw [hl, splitOnChar_append _ _ _ hf, splitOnChar_of_not_mem _ _ hg]
  show parseDT2 (fmtDate dt).toList (genTime i).toList = _
  unfold parseDT2
  rw [parseDateCh_fmtDate dt hy hm1 hm2 hd1 hd2, parseTODCh_genTime i hi]

theorem getCol_ensureDate_ne (today : CDate) (t : Table) (m : String)
    (h : m ≠ "Date") : getCol (ensureDate today t).1 m = getCol t m := by
  unfold ensureDate
  by_cases hd : hasCol t "Date"
  · rw [if_pos hd]
  · rw [if_neg hd]
    exact getCol_setCol_ne _ _ _ _ h

theorem getCol_finishTime_ne (t : Table) (m : String)
    (h1 : m ≠ "DateTime") (h2 : m ≠ "ElapsedTime") :
    getCol (finishTime t) m = getCol t m := by
  unfold finishTime
  rw [getCol_setCol_ne _ _ _ _ h2, getCol_setCol_ne _ _ _ _ h1]

theorem timeReconstruct_no_dt (today : CDate) (t : Table)
    (h : hasCol t "DateTime" = false) :
    timeReconstruct today t =
      match ensureTime t with
      | .error e => .error e
      | .ok (t1, s1) =>
        .ok (finishTime (ensureDate today t1).1, s1 ++ (ensureDate today t1).2) := by
  unfold timeReconstruct
  rw [h]
  rfl

theorem hasCol_congr (t1 t2 : Table) (m : String)
    (h : getCol t1 m = getCol t2 m) : hasCol t1 m = hasCol t2 m := by
  rw [hasCol_eq_isSome, hasCol_eq_isSome, h]

theorem getCol_eq_getColD (t : Table) (n : String) (h : hasCol t n = true) :
    getCol t n = some (getColD t n) := by
  rw [hasCol_eq_isSome] at h
  cases hg : getCol t n with
  | none => rw [hg] at h; cases h
  | some vs =>
    rw [getColD, hg]
    rfl

theorem nRows_dropCol (t : Table) (n : String) :
    (dropCol t n).nRows = t.nRows := rfl

theorem nRows_dropEmpty (t : Table) : (dropEmpty t).nRows = t.nRows := rfl

theorem hasCol_dropEmpty_false (t : Table) (m : String)
    (h : hasCol t m = false) : hasCol (dropEmpty t) m = false :=
  anyName_filter_false _ _ _ h

theorem getCol_dropEmpty_some (t : Table) (m : String) (vs : List Cell)
    (h : getCol t m = some vs) (hnm : vs.all isMissingCell = false) :
    getCol (dropEmpty t) m = some vs := by
  unfold dropEmpty
  refine getCol_filter_of_some _ t m vs h ?_
  intro c _ _ hv
  rw [hv, hnm]
  rfl

theorem gpsSplit_frame (t t2 : Table) (h : gpsSplit t = .ok t2) (m : String)
    (h1 : m ≠ "GPS") (h2 : m ≠ "GPS.Latitude") (h3 : m ≠ "GPS.Longitude") :
    getCol t2 m = getCol t m ∧ t2.nRows = t.nRows := by
  unfold gpsSplit at h
  split at h
  · split at h
    · cases h
    · split at h
      · cases h
      · cases h
        constructor
        · rw [getCol_dropCol_ne _ _ _ h1, getCol_setCol_ne _ _ _ _ h3,
            getCol_setCol_ne _ _ _ _ h2]
        · rw [nRows_dropCol, nRows_setCol, nRows_setCol]
  · cases h
    exact ⟨rfl, rfl⟩

theorem gpsProject_frame (projQ : ℚ → ℚ → ℚ → ℚ → ℚ × ℚ) (t t2 : Table)
    (s : String) (h : gpsProject projQ t = .ok (t2, s)) (m : String)
    (h1 : m ≠ "GPS.X(m)") (h2 : m ≠ "GPS.Y(m)") :
    getCol t2 m = getCol t m ∧ t2.nRows = t.nRows := by
  unfold gpsProject at h
  split at h
  · split at h
    · cases h
    · split at h
      · cases h
      · cases h
        constructor
        · rw [getCol_setCol_ne _ _ _ _ h2, getCol_setCol_ne _ _ _ _ h1]
        · rw [nRows_setCol, nRows_setCol]
  · cases h
    exact ⟨rfl, rfl⟩

theorem ensureTime_frame (t t2 : Table) (s : String)
    (h : ensureTime t = .ok (t2, s)) (m : String) (h1 : m ≠ "Time") :
    getCol t2 m = getCol t m ∧ t2.nRows = t.nRows := by
  unfold ensureTime at h
  split at h
  · split at h
    · split at h
      · cases h
        exact ⟨rfl, rfl⟩
      · cases h
        exact ⟨getCol_setCol_ne _ _ _ _ h1, nRows_setCol _ _ _⟩
    · cases h
    · cases h
  · cases h
    exact ⟨getCol_setCol_ne _ _ _ _ h1, nRows_setCol _ _ _⟩

theorem nRows_ensureDate (today : CDate) (t : Table) :
    (ensureDate today t).1.nRows = t.nRows := by
  unfold ensureDate
  split
  · rfl
  · exact nRows_setCol _ _ _

theorem nRows_finishTime (t : Table) : (finishTime t).nRows = t.nRows := by
  unfold finishTime
  rw [nRows_setCol, nRows_setCol]

theorem timeReconstruct_frame (today : CDate) (t t2 : Table) (s : String)
    (h : timeReconstruct today t = .ok (t2, s)) (m : String)
    (h1 : m ≠ "Time") (h2 : m ≠ "Date") (h3 : m ≠ "DateTime")
    (h4 : m ≠ "ElapsedTime") :
    getCol t2 m = getCol t m ∧ t2.nRows = t.nRows := by
  unfold timeReconstruct at h
  split at h
  · cases h
    exact ⟨rfl, rfl⟩
  · split at h
    · cases h
    · next t1 s1 heq =>
      cases h
      obtain ⟨he1, he2⟩ := ensureTime_frame t t1 s1 heq m h1
      constructor
      · rw [getCol_finishTime_ne _ _ h3 h4, getCol_ensureDate_ne _ _ _ h2, he1]
      · rw [nRows_finishTime, nRows_ensureDate, he2]

theorem powerStage_frame (t : Table) (m : String) (h : m ≠ "Power (W)") :
    getCol (powerStage t).1 m = getCol t m ∧
      (powerStage t).1.nRows = t.nRows := by
  unfold powerStage
  split
  · exact ⟨getCol_setCol_ne _ _ _ _ h, nRows_setCol _ _ _⟩
  · exact ⟨rfl, rfl⟩

theorem lipoStage_frame (t : Table) (m : String)
    (h : m ≠ "LiPo Total (V)") :
    getCol (lipoStage t).1 m = getCol t m ∧
      (lipoStage t).1.nRows = t.nRows := by
  unfold lipoStage
  split
  · exact ⟨rfl, rfl⟩
  · exact ⟨getCol_setCol_ne _ _ _ _ h, nRows_setCol _ _ _⟩

theorem nRows_sortCols (t : Table) : (sortCols t).nRows = t.nRows := rfl

theorem hasCol_sortCols (t : Table) (m : String) :
    hasCol (sortCols t) m = hasCol t m := by
  rw [Bool.eq_iff_iff]
  show anyName (List.insertionSort _ t.cols) m = true ↔ anyName t.cols m = true
  rw [anyName_eq_true_iff, anyName_eq_true_iff]
  constructor
  · rintro ⟨c, hc, he⟩
    exact ⟨c, (List.mem_insertionSort _).mp hc, he⟩
  · rintro ⟨c, hc, he⟩
    exact ⟨c, (List.mem_insertionSort _).mpr hc, he⟩

/-! ### Order lemmas for the column sort, and substring containment -/

theorem strLtCh_asymm : ∀ a b, strLtCh a b = true → strLtCh b a = false
  | [], [], h => by cases h
  | [], _ :: _, _ => rfl
  | _ :: _, [], h => by cases h
  | a :: as2, b :: bs, h => by
    rw [strLtCh] at h
    rw [strLtCh]
    by_cases h1 : a.toNat < b.toNat
    · rw [if_neg (by omega), if_pos h1]
    · rw [if_neg h1] at h
      by_cases h2 : b.toNat < a.toNat
      · rw [if_pos h2] at h
        cases h
      · rw [if_neg h2] at h
        rw [if_neg h2, if_neg h1]
        exact strLtCh_asymm as2 bs h

theorem strLtCh_cotrans : ∀ a b c, strLtCh a c = true →
    strLtCh a b = true ∨ strLtCh b c = true
  | [], b, c :: cs, _ => by
    cases b with
    | nil => right; rfl
    | cons y bs => left; rfl
  | [], _, [], h => by cases h
  | _ :: _, _, [], h => by
    rw [strLtCh] at h
    cases h
  | x :: as2, [], z :: cs, _ => by
    right
    rfl
  | x :: as2, y :: bs, z :: cs, h => by
    rw [strLtCh] at h
    by_cases h1 : x.toNat < z.toNat
    · by_cases h2 : x.toNat < y.toNat
      · left
        rw [strLtCh, if_pos h2]
      · by_cases h3 : y.toNat < x.toNat
        · right
          rw [strLtCh, if_pos (by omega)]
        · right
          rw [strLtCh, if_pos (by omega)]
    · rw [if_neg h1] at h
      by_cases h4 : z.toNat < x.toNat
      · rw [if_pos h4] at h
        cases h
      · rw [if_neg h4] at h
        by_cases h2 : x.toNat < y.toNat
        · left
          rw [strLtCh, if_pos h2]
        · by_cases h3 : y.toNat < x.toNat
          · right
            rw [strLtCh, if_pos (by omega)]
          · rcases strLtCh_cotrans as2 bs cs h with hr | hr
            · left
              rw [strLtCh, if_neg h2, if_neg h3]
              exact hr
            · right
              rw [strLtCh, if_neg (by omega), if_neg (by omega)]
              exact hr

theorem strLtCh_eq_of_both_false : ∀ a b, strLtCh a b = false →
    strLtCh b a = false → a = b
  | [], [], _, _ => rfl
  | [], _ :: _, h1, _ => by cases h1
  | _ :: _, [], _, h2 => by cases h2
  | x :: as2, y :: bs, h1, h2 => by
    rw [strLtCh] at h1 h2
    by_cases hxy : x.toNat < y.toNat
    · rw [if_pos hxy] at h1
      cases h1
    · by_cases hyx : y.toNat < x.toNat
      · rw [if_pos hyx] at h2
        cases h2
      · rw [if_neg hxy, if_neg hyx] at h1
        rw [if_neg hyx, if_neg hxy] at h2
        have hv : x = y := by
          have : x.toNat = y.toNat := by omega
          have hval : x.val = y.val := by
            have h32 : x.val.toNat = y.val.toNat := this
            cases hx2 : x.val
            cases hy2 : y.val
            rw [hx2, hy2] at h32
            congr 1
            exact BitVec.eq_of_toNat_eq h32
          cases x
          cases y
          cases hval
          rfl
        rw [hv, strLtCh_eq_of_both_false as2 bs h1 h2]

theorem strLeCh_total (a b : List Char) :
    strLeCh a b = true ∨ strLeCh b a = true := by
  unfold strLeCh
  by_cases h : strLtCh b a = true
  · right
    rw [strLtCh_asymm _ _ h]
    rfl
  · left
    rw [Bool.not_eq_true] at h
    rw [h]
    rfl

theorem strLeCh_trans (a b c : List Char) (h1 : strLeCh a b = true)
    (h2 : strLeCh b c = true) : strLeCh a c = true := by
  unfold strLeCh at h1 h2 ⊢
  cases hab : strLtCh b a with
  | true => rw [hab] at h1; cases h1
  | false =>
    cases hbc : strLtCh c b with
    | true => rw [hbc] at h2; cases h2
    | false =>
      cases hca : strLtCh c a with
      | false => rfl
      | true =>
        rcases strLtCh_cotrans c b a hca with h | h
        · rw [h] at hbc
          cases hbc
        · rw [h] at hab
          cases hab

theorem strLeCh_of_ne (a b : List Char) (h1 : strLeCh a b = true)
    (h2 : a ≠ b) : strLtCh a b = true := by
  unfold strLeCh at h1
  cases hab : strLtCh a b with
  | true => rfl
  | false =>
    cases hba : strLtCh b a with
    | true => rw [hba] at h1; cases h1
    | false => exact absurd (strLtCh_eq_of_both_false a b hab hba) h2

/-! ### Preservation of name-distinctness and uniform column length -/

theorem namesNodup_setCol (t : Table) (n : String) (vs : List Cell)
    (h : NamesNodup t) : NamesNodup (setCol t n vs) := by
  unfold setCol
  by_cases hc : hasCol t n
  · rw [if_pos hc]
    show ((replaceCol t.cols n vs).map Col.name).Nodup
    rw [names_replaceCol]
    exact h
  · rw [if_neg hc]
    show ((t.cols ++ [(⟨n, vs⟩ : Col)]).map Col.name).Nodup
    rw [List.map_append, List.nodup_append]
    refine ⟨h, List.nodup_singleton _, ?_⟩
    intro x hx hx2
    have hxn : x = n := by
      simpa using hx2
    subst hxn
    obtain ⟨c, hcm, he⟩ := List.mem_map.mp hx
    have : anyName t.cols x = true :=
      (anyName_eq_true_iff _ _).mpr ⟨c, hcm, he⟩
    exact hc this

theorem namesNodup_filter (k : Nat) (t : Table) (p : Col → Bool)
    (h : NamesNodup t) : NamesNodup (⟨k, t.cols.filter p⟩ : Table) := by
  show ((t.cols.filter p).map Col.name).Nodup
  exact List.Nodup.sublist ((List.filter_sublist t.cols).map Col.name) h

theorem namesNodup_dropEmpty (t : Table) (h : NamesNodup t) :
    NamesNodup (dropEmpty t) :=
  namesNodup_filter _ t _ h

theorem namesNodup_dropCol (t : Table) (n : String) (h : NamesNodup t) :
    NamesNodup (dropCol t n) :=
  namesNodup_filter _ t _ h

theorem namesNodup_gpsSplit (t t2 : Table) (h : gpsSplit t = .ok t2)
    (hnd : NamesNodup t) : NamesNodup t2 := by
  unfold gpsSplit at h
  split at h
  · split at h
    · cases h
    · split at h
      · cases h
      · cases h
        exact namesNodup_dropCol _ _
          (namesNodup_setCol _ _ _ (namesNodup_setCol _ _ _ hnd))
  · cases h
    exact hnd

theorem namesNodup_gpsProject (projQ : ℚ → ℚ → ℚ → ℚ → ℚ × ℚ)
    (t t2 : Table) (s : String) (h : gpsProject projQ t = .ok (t2, s))
    (hnd : NamesNodup t) : NamesNodup t2 := by
  unfold gpsProject at h
  split at h
  · split at h
    · cases h
    · split at h
      · cases h
      · cases h
        exact namesNodup_setCol _ _ _ (namesNodup_setCol _ _ _ hnd)
  · cases h
    exact hnd

theorem namesNodup_ensureTime (t t2 : Table) (s : String)
    (h : ensureTime t = .ok (t2, s)) (hnd : NamesNodup t) :
    NamesNodup t2 := by
  unfold ensureTime at h
  split at h
  · split at h
    · split at h
      · cases h
        exact hnd
      · cases h
        exact namesNodup_setCol _ _ _ hnd
    · cases h
    · cases h
  · cases h
    exact namesNodup_setCol _ _ _ hnd

theorem namesNodup_ensureDate (today : CDate) (t : Table)
    (hnd : NamesNodup t) : NamesNodup (ensureDate today t).1 := by
  unfold ensureDate
  split
  · exact hnd
  · exact namesNodup_setCol _ _ _ hnd

theorem namesNodup_finishTime (t : Table) (hnd : NamesNodup t) :
    NamesNodup (finishTime t) :=
  namesNodup_setCol _ _ _ (namesNodup_setCol _ _ _ hnd)

theorem namesNodup_timeReconstruct (today : CDate) (t t2 : Table)
    (s : String) (h : timeReconstruct today t = .ok (t2, s))
    (hnd : NamesNodup t) : NamesNodup t2 := by
  unfold timeReconstruct at h
  split at h
  · cases h
    exact hnd
  · split at h
    · cases h
    · next t1 s1 heq =>
      cases h
      exact namesNodup_finishTime _
        (namesNodup_ensureDate _ _ (namesNodup_ensureTime _ _ _ heq hnd))

theorem namesNodup_powerStage (t : Table) (hnd : NamesNodup t) :
    NamesNodup (powerStage t).1 := by
  unfold powerStage
  split
  · exact namesNodup_setCol _ _ _ hnd
  · exact hnd

theorem namesNodup_lipoStage (t : Table) (hnd : NamesNodup t) :
    NamesNodup (lipoStage t).1 := by
  unfold lipoStage
  split
  · exact hnd
  · exact namesNodup_setCol _ _ _ hnd

theorem names_sortCols_perm (t : Table) :
    ((sortCols t).cols.map Col.name).Perm (t.cols.map Col.name) :=
  (List.perm_insertionSort _ t.cols).map Col.name

theorem namesNodup_sortCols (t : Table) (hnd : NamesNodup t) :
    NamesNodup (sortCols t) :=
  (names_sortCols_perm t).nodup_iff.mpr hnd

theorem findCol_eq_some_of_nodup (l : List Col)
    (hnd : (l.map Col.name).Nodup) (n : String) (c : Col) (hm : c ∈ l)
    (he : c.name = n) : findCol l n = some c := by
  induction l with
  | nil => cases hm
  | cons a l ih =>
    rw [List.map_cons, List.nodup_cons] at hnd
    rw [findCol]
    rcases List.mem_cons.mp hm with hm | hm
    · subst hm
      rw [if_pos (by simp [he])]
    · by_cases ha : (a.name == n) = true
      · exfalso
        have hae : a.name = n := by simpa using ha
        have : c.name ∈ l.map Col.name := List.mem_map.mpr ⟨c, hm, rfl⟩
        rw [he, ← hae] at this
        exact hnd.1 this
      · rw [if_neg ha]
        exact ih hnd.2 hm

theorem findCol_none_of_anyName_false (l : List Col) (n : String)
    (h : anyName l n = false) : findCol l n = none := by
  induction l with
  | nil => rfl
  | cons a l ih =>
    rw [anyName, Bool.or_eq_false_iff] at h
    rw [findCol, if_neg (by rw [h.1]; intro hc; cases hc)]
    exact ih h.2

theorem findVals_perm_of_nodup (l l2 : List Col) (hp : l.Perm l2)
    (hnd : (l.map Col.name).Nodup) (n : String) :
    findVals l n = findVals l2 n := by
  cases hf : findCol l n with
  | some c =>
    have hnd2 : (l2.map Col.name).Nodup := ((hp.map Col.name).nodup_iff).mp hnd
    have hm := findCol_mem _ _ _ hf
    have he := findCol_name _ _ _ hf
    have h2 : findCol l2 n = some c :=
      findCol_eq_some_of_nodup l2 hnd2 n c (hp.mem_iff.mp hm) he
    rw [findVals, findVals, hf, h2]
  | none =>
    have h2 : anyName l2 n = false := by
      cases ha : anyName l2 n
      · rfl
      · obtain ⟨c, hc, he⟩ := (anyName_eq_true_iff _ _).mp ha
        have := findCol_eq_some_of_nodup l hnd n c (hp.mem_iff.mpr hc) he
        rw [this] at hf
        cases hf
    rw [findVals, findVals, hf, findCol_none_of_anyName_false _ _ h2]

theorem getCol_sortCols_of_nodup (t : Table) (hnd : NamesNodup t)
    (m : String) : getCol (sortCols t) m = getCol t m := by
  show findVals (List.insertionSort _ t.cols) m = findVals t.cols m
  refine findVals_perm_of_nodup _ _ (List.perm_insertionSort _ t.cols) ?_ m
  exact ((List.perm_insertionSort _ t.cols).map Col.name).nodup_iff.mpr hnd

theorem uniformLen_setCol (t : Table) (n : String) (vs : List Cell)
    (hu : UniformLen t) (hv : vs.length = t.nRows) :
    UniformLen (setCol t n vs) := by
  intro c hc
  rw [nRows_setCol]
  unfold setCol at hc
  by_cases hb : hasCol t n
  · rw [if_pos hb] at hc
    obtain ⟨c0, hc0, he⟩ := List.mem_map.mp hc
    by_cases ha : (c0.name == n) = true
    · rw [if_pos ha] at he
      rw [← he]
      exact hv
    · rw [if_neg ha] at he
      rw [← he]
      exact hu c0 hc0
  · rw [if_neg hb] at hc
    rcases List.mem_append.mp hc with hc | hc
    · exact hu c hc
    · rw [List.mem_singleton] at hc
      subst hc
      exact hv

theorem uniformLen_filter (k : Nat) (t : Table) (p : Col → Bool)
    (hk : k = t.nRows) (hu : UniformLen t) :
    UniformLen (⟨k, t.cols.filter p⟩ : Table) := by
  intro c hc
  rw [hk]
  exact hu c (List.mem_of_mem_filter hc)

theorem uniformLen_dropEmpty (t : Table) (hu : UniformLen t) :
    UniformLen (dropEmpty t) :=
  uniformLen_filter _ t _ rfl hu

theorem uniformLen_dropCol (t : Table) (n : String) (hu : UniformLen t) :
    UniformLen (dropCol t n) :=
  uniformLen_filter _ t _ rfl hu

theorem getColD_length (t : Table) (n : String) (hu : UniformLen t)
    (h : hasCol t n = true) : (getColD t n).length = t.nRows :=
  getCol_length t n _ hu (getCol_eq_getColD t n h)

theorem uniformLen_gpsSplit (t t2 : Table) (h : gpsSplit t = .ok t2)
    (hu : UniformLen t) : UniformLen t2 := by
  unfold gpsSplit at h
  split at h
  · next hg =>
    split at h
    · cases h
    · split at h
      · cases h
      · cases h
        have hl : (getColD t "GPS").length = t.nRows := getColD_length t _ hu hg
        refine uniformLen_dropCol _ _ ?_
        refine uniformLen_setCol _ _ _ ?_ ?_
        · refine uniformLen_setCol _ _ _ hu ?_
          rw [List.length_map, hl]
        · rw [List.length_map, hl, nRows_setCol]
  · cases h
    exact hu

theorem astypeFloatCol_length : ∀ (vs : List Cell) (l : List (Option ℚ)),
    astypeFloatCol vs = .ok l → l.length = vs.length
  | [], l, h => by
    cases h
    rfl
  | c :: cs, l, h => by
    rw [astypeFloatCol] at h
    split at h
    · cases h
    · cases h
    · next v vs2 hv hvs =>
      cases h
      rw [List.length_cons, List.length_cons,
        astypeFloatCol_length cs vs2 hvs]

theorem uniformLen_gpsProject (projQ : ℚ → ℚ → ℚ → ℚ → ℚ × ℚ)
    (t t2 : Table) (s : String) (h : gpsProject projQ t = .ok (t2, s))
    (hu : UniformLen t) : UniformLen t2 := by
  unfold gpsProject at h
  split at h
  · next hg =>
    rw [Bool.and_eq_true] at hg
    split at h
    · cases h
    · next lons hlons =>
      split at h
      · cases h
      · next lats hlats =>
        cases h
        have hlon : lons.length = t.nRows := by
          rw [astypeFloatCol_length _ _ hlons, getColD_length t _ hu hg.1]
        have hlat : lats.length = t.nRows := by
          rw [astypeFloatCol_length _ _ hlats, getColD_length t _ hu hg.2]
        have hz : (List.zipWith (fun lo la =>
            match lo, la with
            | some lo, some la =>
              ((Cell.num (projQ (nanMean lats) (nanMean lons) la lo).1,
                Cell.num (projQ (nanMean lats) (nanMean lons) la lo).2) :
                Cell × Cell)
            | _, _ => ((Cell.missing, Cell.missing) : Cell × Cell))
            lons lats).length = t.nRows := by
          rw [List.length_zipWith, hlon, hlat, Nat.min_self]
        refine uniformLen_setCol _ _ _ ?_ ?_
        · refine uniformLen_setCol _ _ _ hu ?_
          rw [List.length_map]
          exact hz
        · rw [List.length_map, nRows_setCol]
          exact hz
  · cases h
    exact hu

theorem ensureTime_hasTime (t t2 : Table) (s : String)
    (h : ensureTime t = .ok (t2, s)) : hasCol t2 "Time" = true := by
  unfold ensureTime at h
  split at h
  · next hg =>
    split at h
    · split at h
      · cases h
        exact hg
      · cases h
        rw [hasCol_setCol]
        simp
    · cases h
    · cases h
  · cases h
    rw [hasCol_setCol]
    simp

theorem uniformLen_ensureTime (t t2 : Table) (s : String)
    (h : ensureTime t = .ok (t2, s)) (hu : UniformLen t) :
    UniformLen t2 := by
  unfold ensureTime at h
  split at h
  · next hg =>
    split at h
    · split at h
      · cases h
        exact hu
      · cases h
        refine uniformLen_setCol _ _ _ hu ?_
        rw [List.length_map]
        exact getColD_length t _ hu hg
    · cases h
    · cases h
  · cases h
    refine uniformLen_setCol _ _ _ hu ?_
    rw [List.length_map, List.length_range]

theorem ensureDate_hasDate (today : CDate) (t : Table) :
    hasCol (ensureDate today t).1 "Date" = true := by
  unfold ensureDate
  split
  · next hg => exact hg
  · rw [hasCol_setCol]
    simp

theorem uniformLen_ensureDate (today : CDate) (t : Table)
    (hu : UniformLen t) : UniformLen (ensureDate today t).1 := by
  unfold ensureDate
  split
  · exact hu
  · refine uniformLen_setCol _ _ _ hu ?_
    rw [List.length_replicate]

theorem mkDTs_length (t : Table) (hT : hasCol t "Time" = true)
    (hD : hasCol t "Date" = true) (hu : UniformLen t) :
    (mkDTs t).length = t.nRows := by
  unfold mkDTs
  rw [List.length_zipWith, getColD_length t _ hu hT,
    getColD_length t _ hu hD, Nat.min_self]

theorem computeElapsed_length (dts : List (Option ℚ)) :
    (computeElapsed dts).length = dts.length := by
  unfold computeElapsed
  split
  · rw [List.length_map]
  · rw [List.length_map]

theorem uniformLen_finishTime (t : Table) (hT : hasCol t "Time" = true)
    (hD : hasCol t "Date" = true) (hu : UniformLen t) :
    UniformLen (finishTime t) := by
  unfold finishTime
  have hl := mkDTs_length t hT hD hu
  refine uniformLen_setCol _ _ _ ?_ ?_
  · refine uniformLen_setCol _ _ _ hu ?_
    rw [List.length_map]
    exact hl
  · rw [List.length_map, computeElapsed_length, hl, nRows_setCol]

theorem uniformLen_timeReconstruct (today : CDate) (t t2 : Table)
    (s : String) (h : timeReconstruct today t = .ok (t2, s))
    (hu : UniformLen t) : UniformLen t2 := by
  unfold timeReconstruct at h
  split at h
  · cases h
    exact hu
  · split at h
    · cases h
    · next t1 s1 heq =>
      cases h
      have hT1 := ensureTime_hasTime t t1 s1 heq
      have hu1 := uniformLen_ensureTime t t1 s1 heq hu
      have hT2 : hasCol (ensureDate today t1).1 "Time" = true := by
        rw [hasCol_congr _ t1 _ (getCol_ensureDate_ne _ _ _ (by decide))]
        exact hT1
      exact uniformLen_finishTime _ hT2 (ensureDate_hasDate today t1)
        (uniformLen_ensureDate today t1 hu1)

theorem uniformLen_powerStage (t : Table) (hu : UniformLen t) :
    UniformLen (powerStage t).1 := by
  unfold powerStage
  split
  · next hg =>
    rw [Bool.and_eq_true] at hg
    refine uniformLen_setCol _ _ _ hu ?_
    rw [List.length_zipWith, getColD_length t _ hu hg.1,
      getColD_length t _ hu hg.2, Nat.min_self]
  · exact hu

theorem uniformLen_lipoStage (t : Table) (hu : UniformLen t) :
    UniformLen (lipoStage t).1 := by
  unfold lipoStage
  split
  · exact hu
  · refine uniformLen_setCol _ _ _ hu ?_
    rw [List.length_map, List.length_range]

theorem uniformLen_sortCols (t : Table) (hu : UniformLen t) :
    UniformLen (sortCols t) := by
  intro c hc
  exact hu c ((List.mem_insertionSort _).mp hc)

theorem timeReconstruct_pass (today : CDate) (t : Table)
    (h : hasCol t "DateTime" = true) :
    timeReconstruct today t = .ok (t, "") := by
  unfold timeReconstruct
  rw [h]
  rfl

theorem gpsSplit_no_gps (t : Table) (h : hasCol t "GPS" = false) :
    gpsSplit t = .ok t := by
  unfold gpsSplit
  rw [h]
  rfl

theorem gpsProject_no_gps (projQ : ℚ → ℚ → ℚ → ℚ → ℚ × ℚ) (t : Table)
    (h : hasCol t "GPS.Longitude" = false) :
    gpsProject projQ t = .ok (t, "No GPS data found.\n") := by
  unfold gpsProject
  rw [h]
  rfl

theorem ensureTime_no_time (t : Table) (h : hasCol t "Time" = false) :
    ensureTime t = .ok (setCol t "Time"
      ((List.range t.nRows).map (fun i => .str (genTime i))),
      "No time data found.\n") := by
  unfold ensureTime
  rw [h]
  rfl

theorem ensureDate_no_date (today : CDate) (t : Table)
    (h : hasCol t "Date" = false) :
    ensureDate today t = (setCol t "Date"
      (List.replicate t.nRows (.str (fmtDate today))),
      "No date data found.\n") := by
  unfold ensureDate
  rw [h]
  rfl

theorem containsSubstr_intro (s pat : String) (l1 l2 : List Char)
    (h : s.toList = l1 ++ (pat.toList ++ l2)) :
    containsSubstr s pat = true := by
  unfold containsSubstr
  rw [List.any_eq_true]
  refine ⟨l1.length, ?_, ?_⟩
  · rw [List.mem_range, h, List.length_append]
    omega
  · rw [h, List.drop_left]
    rw [List.isPrefixOf_iff_prefix]
    exact List.prefix_append _ _

theorem toList_append (a b : String) :
    (a ++ b).toList = a.toList ++ b.toList :=
  String.data_append a b

theorem containsSubstr_elim (s pat : String)
    (h : containsSubstr s pat = true) :
    ∃ i, pat.toList.isPrefixOf (s.toList.drop i) = true := by
  unfold containsSubstr at h
  rw [List.any_eq_true] at h
  obtain ⟨i, _, hp⟩ := h
  exact ⟨i, hp⟩

theorem containsSubstr_appendl (s1 s2 pat : String)
    (h : containsSubstr s1 pat = true) :
    containsSubstr (s1 ++ s2) pat = true := by
  obtain ⟨i, hp⟩ := containsSubstr_elim s1 pat h
  by_cases hi : i ≤ s1.toList.length
  · unfold containsSubstr
    rw [List.any_eq_true]
    refine ⟨i, ?_, ?_⟩
    · rw [List.mem_range, toList_append, List.length_append]
      omega
    · rw [toList_append, List.drop_append_eq_append_drop,
        Nat.sub_eq_zero_of_le hi, List.drop_zero]
      rw [List.isPrefixOf_iff_prefix] at hp ⊢
      exact hp.trans (List.prefix_append _ _)
  · rw [List.drop_eq_nil_of_le (by omega)] at hp
    rw [List.isPrefixOf_iff_prefix, List.prefix_nil] at hp
    unfold containsSubstr
    rw [List.any_eq_true]
    refine ⟨0, by rw [List.mem_range]; omega, ?_⟩
    rw [hp, List.isPrefixOf_iff_prefix]
    exact List.nil_prefix

theorem containsSubstr_appendr (s1 s2 pat : String)
    (h : containsSubstr s2 pat = true) :
    containsSubstr (s1 ++ s2) pat = true := by
  obtain ⟨i, hp⟩ := containsSubstr_elim s2 pat h
  by_cases hi : i ≤ s2.toList.length
  · unfold containsSubstr
    rw [List.any_eq_true]
    refine ⟨s1.toList.length + i, ?_, ?_⟩
    · rw [List.mem_range, toList_append, List.length_append]
      omega
    · rw [toList_append, List.drop_append_eq_append_drop,
        List.drop_eq_nil_of_le (by omega), Nat.add_sub_cancel_left,
        List.nil_append]
      exact hp
  · unfold containsSubstr
    rw [List.any_eq_true]
    rw [List.drop_eq_nil_of_le (by omega)] at hp
    refine ⟨(s1 ++ s2).toList.length, ?_, ?_⟩
    · rw [List.mem_range]
      omega
    · rw [List.drop_eq_nil_of_le (by omega)]
      exact hp

theorem computeElapsed_arith (D : ℚ) :
    computeElapsed [some (D + (43200 + ((0 : ℕ) : ℚ))),
      some (D + (43200 + ((1 : ℕ) : ℚ))),
      some (D + (43200 + ((2 : ℕ) : ℚ)))] = [some 0, some 1, some 2] := by
  rw [computeElapsed_of_ex_some _ ⟨some (D + (43200 + ((0 : ℕ) : ℚ))),
    List.mem_cons_self _ _, rfl⟩]
  show [some ((D + (43200 + ((0 : ℕ) : ℚ))) - (D + (43200 + ((0 : ℕ) : ℚ)))),
    some ((D + (43200 + ((1 : ℕ) : ℚ))) - (D + (43200 + ((0 : ℕ) : ℚ)))),
    some ((D + (43200 + ((2 : ℕ) : ℚ))) - (D + (43200 + ((0 : ℕ) : ℚ))))] = _
  have e0 : (D + (43200 + ((0 : ℕ) : ℚ))) - (D + (43200 + ((0 : ℕ) : ℚ)))
      = 0 := sub_self _
  have e1 : (D + (43200 + ((1 : ℕ) : ℚ))) - (D + (43200 + ((0 : ℕ) : ℚ)))
      = 1 := by
    push_cast
    ring
  have e2 : (D + (43200 + ((2 : ℕ) : ℚ))) - (D + (43200 + ((0 : ℕ) : ℚ)))
      = 2 := by
    push_cast
    ring
  rw [e0, e1, e2]

/-- **C2.** For every table with no `DateTime` column but a `Time` column
whose first cell is the text `s0` (the only case in which the source's
`re.match` call is defined): the time-reconstruction stage succeeds, and
if `s0` matches `^\d{1,2}:\d{2}:\d{2}\.\d+$` then the `Time` column is
unchanged in the output, while if it does not match then every row's
`Time` value uniformly becomes `"12:" + str(value)`. -/
theorem claim_C2_time_prefix_fix (today : CDate) (t : Table)
    (vs : List Cell) (s0 : String)
    (hdt : hasCol t "DateTime" = false)
    (ht : getCol t "Time" = some vs)
    (h0 : vs.head? = some (.str s0)) :
    ∃ out st, timeReconstruct today t = .ok (out, st) ∧
      (timePat s0 = true → getCol out "Time" = some vs) ∧
      (timePat s0 = false →
        getCol out "Time" =
          some (vs.map (fun c => .str ("12:" ++ astypeStr c)))) := by
  have hTime : hasCol t "Time" = true := by
    rw [hasCol_eq_isSome, ht]
    rfl
  have hgd : getColD t "Time" = vs := by
    rw [getColD, ht]
    rfl
  have hET : ensureTime t =
      (if timePat s0 then .ok (t, "")
       else .ok (setCol t "Time"
         (vs.map (fun c => .str ("12:" ++ astypeStr c))), "")) := by
    unfold ensureTime
    rw [hTime, hgd, h0, if_pos rfl]
  by_cases hpat : timePat s0
  · rw [if_pos hpat] at hET
    refine ⟨finishTime (ensureDate today t).1, "" ++ (ensureDate today t).2,
      ?_, ?_, ?_⟩
    · rw [timeReconstruct_no_dt today t hdt, hET]
    · intro _
      rw [getCol_finishTime_ne _ _ (by decide) (by decide),
        getCol_ensureDate_ne _ _ _ (by decide)]
      exact ht
    · intro hc
      rw [hpat] at hc
      cases hc
  · rw [if_neg hpat] at hET
    refine ⟨finishTime (ensureDate today
        (setCol t "Time" (vs.map (fun c => .str ("12:" ++ astypeStr c))))).1,
      "" ++ (ensureDate today
        (setCol t "Time" (vs.map (fun c => .str ("12:" ++ astypeStr c))))).2,
      ?_, ?_, ?_⟩
    · rw [timeReconstruct_no_dt today t hdt, hET]
    · intro hc
      rw [Bool.not_eq_true] at hpat
      rw [hpat] at hc
      cases hc
    · intro _
      rw [getCol_finishTime_ne _ _ (by decide) (by decide),
        getCol_ensureDate_ne _ _ _ (by decide)]
      exact getCol_setCol_self _ _ _

theorem claim_C2_witness :
    ∃ out st, timeReconstruct ⟨2026, 10, 12⟩
        ⟨2, [⟨"Time", [Cell.str "34:56.7", Cell.str "35:56.7"]⟩]⟩ =
      .ok (out, st) ∧
      (timePat "34:56.7" = true →
        getCol out "Time" = some [Cell.str "34:56.7", Cell.str "35:56.7"]) ∧
      (timePat "34:56.7" = false →
        getCol out "Time" =
          some ([Cell.str "34:56.7", Cell.str "35:56.7"].map
            (fun c => .str ("12:" ++ astypeStr c)))) :=
  claim_C2_time_prefix_fix ⟨2026, 10, 12⟩
    ⟨2, [⟨"Time", [Cell.str "34:56.7", Cell.str "35:56.7"]⟩]⟩
    [Cell.str "34:56.7", Cell.str "35:56.7"] "34:56.7"
    (by decide) (by decide) (by decide)

/-- **C7 (counterexample).** The claim's last clause says the `Power (W)`
column is absent from the output whenever either input column is absent.
But line 130 only guards the *creation* of the column: a table that
already carries `Power (W)` and has neither `VFAS(V)` nor `Current(A)`
keeps its `Power (W)` column all the way to the output. -/
theorem claim_C7_counterexample :
    hasCol (⟨1, [⟨"Power (W)", [Cell.num 7]⟩]⟩ : Table) "VFAS(V)"
      = false ∧
    hasCol (⟨1, [⟨"Power (W)", [Cell.num 7]⟩]⟩ : Table) "Current(A)"
      = false ∧
    (loadLogFile projTriv ⟨2026, 10, 12⟩
        ⟨1, [⟨"Power (W)", [Cell.num 7]⟩]⟩).toOption.map
      (fun r => hasCol r.1 "Power (W)") = some true := by
  refine ⟨by decide, by decide, by decide⟩

/-- **C7 (amended).** For every table containing both `VFAS(V)` and
`Current(A)`, the derived-field stage writes `Power (W)` as the row-wise
missing-propagating product of the two columns; when either input column
is absent, the stage leaves the presence of `Power (W)` exactly as it
came in — so the column is absent from the stage output iff the input
table did not already carry it. -/
theorem claim_C7_power_amended (t : Table) :
    ((hasCol t "VFAS(V)" && hasCol t "Current(A)") = true →
      getCol (powerStage t).1 "Power (W)" =
        some (List.zipWith cellMul (getColD t "VFAS(V)")
          (getColD t "Current(A)"))) ∧
    (∀ a b : ℚ, cellMul (.num a) (.num b) = .num (a * b)) ∧
    (∀ c : Cell, cellMul .missing c = .missing) ∧
    (∀ c : Cell, cellMul c .missing = .missing) ∧
    ((hasCol t "VFAS(V)" && hasCol t "Current(A)") = false →
      hasCol (powerStage t).1 "Power (W)" = hasCol t "Power (W)") := by
  refine ⟨?_, fun a b => rfl, fun c => rfl, fun c => ?_, ?_⟩
  · intro hb
    unfold powerStage
    rw [hb, if_pos rfl]
    exact getCol_setCol_self _ _ _
  · cases c <;> rfl
  · intro hb
    unfold powerStage
    rw [hb]
    rfl

theorem claim_C7_witness :
    getCol (powerStage ⟨2, [⟨"VFAS(V)", [Cell.num 10, Cell.num 11]⟩,
        ⟨"Current(A)", [Cell.num 2, Cell.missing]⟩]⟩).1 "Power (W)" =
      some [Cell.num 20, Cell.missing] := by
  rw [(claim_C7_power_amended ⟨2, [⟨"VFAS(V)", [Cell.num 10, Cell.num 11]⟩,
    ⟨"Current(A)", [Cell.num 2, Cell.missing]⟩]⟩).1 (by decide)]
  decide

/-- **C6 (counterexample).** The claim reads the source's column pattern
as a full-name match: `LiPo Total (V)` exists iff some column's whole
name is `LiPo` + digits + `(V)`. But `re.match` only anchors at the
start: on a table whose only column is `LiPo1(V)x` — which no full-name
match accepts — the pipeline still creates `LiPo Total (V)`. -/
theorem claim_C6_counterexample :
    (loadLogFile projTriv ⟨2026, 10, 12⟩
        ⟨1, [⟨"LiPo1(V)x", [Cell.num 5]⟩]⟩).toOption.map
      (fun r => hasCol r.1 "LiPo Total (V)") = some true ∧
    (⟨1, [⟨"LiPo1(V)x", [Cell.num 5]⟩]⟩ : Table).cols.all
      (fun c => !(lipoFullMatchSpec c.name)) = true := by
  constructor
  · decide
  · decide

/-- **C6 (amended).** With the pattern read as the source's PREFIX match
(`re.match` semantics, trailing characters allowed), and for tables that
did not already carry a `LiPo Total (V)` column: the stage output has a
`LiPo Total (V)` column iff at least one prefix-matching column exists,
and when one does, each row of `LiPo Total (V)` is the sum over all
prefix-matching columns of that row's values with missing cells counted
as zero. -/
theorem claim_C6_lipo_total_amended (t : Table) :
    (∀ q : ℚ, toNumZero (.num q) = q) ∧
    toNumZero .missing = 0 ∧
    (hasCol (lipoStage t).1 "LiPo Total (V)"
      = (hasCol t "LiPo Total (V)" || !(lipoCols t).isEmpty)) ∧
    ((lipoCols t).isEmpty = false →
      getCol (lipoStage t).1 "LiPo Total (V)" =
        some ((List.range t.nRows).map (fun i =>
          Cell.num ((lipoCols t).map
            (fun c => toNumZero (c.values.getD i Cell.missing))).sum))) := by
  refine ⟨fun q => rfl, rfl, ?_, ?_⟩
  · unfold lipoStage
    by_cases he : (lipoCols t).isEmpty
    · rw [if_pos he, he]
      show hasCol t "LiPo Total (V)" = _
      rw [Bool.not_true, Bool.or_false]
    · rw [if_neg he]
      show hasCol (setCol t _ _) "LiPo Total (V)" = _
      rw [hasCol_setCol]
      rw [Bool.not_eq_true] at he
      rw [he, Bool.not_false, Bool.or_true]
      simp
  · intro he
    unfold lipoStage
    rw [he]
    show getCol (setCol t _ _) "LiPo Total (V)" = _
    exact getCol_setCol_self _ _ _

theorem claim_C6_witness :
    getCol (lipoStage ⟨2, [⟨"LiPo1(V)", [Cell.num 1, Cell.missing]⟩,
        ⟨"LiPo2(V)", [Cell.num 2, Cell.num 3]⟩]⟩).1 "LiPo Total (V)" =
      some [Cell.num 3, Cell.num 3] := by
  rw [(claim_C6_lipo_total_amended ⟨2, [⟨"LiPo1(V)", [Cell.num 1, Cell.missing]⟩,
    ⟨"LiPo2(V)", [Cell.num 2, Cell.num 3]⟩]⟩).2.2.2 (by decide)]
  decide

/-- **C8.** The projection writing `GPS.X(m)`/`GPS.Y(m)` is centred on
the arithmetic mean latitude/longitude: any row whose coordinates equal
the centroid projects exactly to `(0, 0)` (the geodesic distance from the
centre vanishes there), and in particular a single-row track projects its
only row to `(0, 0)`. -/
theorem claim_C8_centroid_zero (lats lons : List ℝ) :
    (∀ i, i < (gpsProjectRows lats lons).length →
      lats.getD i 0 = meanR lats → lons.getD i 0 = meanR lons →
      (gpsProjectRows lats lons).getD i (0, 0) = (0, 0)) ∧
    (∀ la lo : ℝ, gpsProjectRows [la] [lo] = [(0, 0)]) := by
  constructor
  · intro i hi hla hlo
    unfold gpsProjectRows at hi ⊢
    rw [getD_zipWith _ 0 0 _ _ _ _ hi, hla, hlo]
    exact aeqdProj_self _ _
  · intro la lo
    show [aeqdProj (meanR [la]) (meanR [lo]) la lo] = [(0, 0)]
    have hla : meanR [la] = la := by
      simp [meanR]
    have hlo : meanR [lo] = lo := by
      simp [meanR]
    rw [hla, hlo, aeqdProj_self]

theorem astypeFloatCol_error (vs : List Cell)
    (h : ∃ c ∈ vs, ∃ e, astypeFloat c = .error e) :
    ∃ e, astypeFloatCol vs = .error e := by
  induction vs with
  | nil => simp at h
  | cons a l ih =>
    obtain ⟨c, hc, e, he⟩ := h
    rcases List.mem_cons.mp hc with hc | hc
    · subst hc
      exact ⟨e, by rw [astypeFloatCol, he]⟩
    · cases ha : astypeFloat a with
      | error e2 => exact ⟨e2, by rw [astypeFloatCol, ha]⟩
      | ok v =>
        obtain ⟨e2, he2⟩ := ih ⟨c, hc, e, he⟩
        exact ⟨e2, by rw [astypeFloatCol, ha, he2]⟩

/-- **C3 (counterexample).** The claim says an unparsable coordinate only
marks that row's projection missing and the table is still returned. In
the source, `astype(float)` (line 66-67) raises `ValueError` on the first
unparsable cell, so a table with one bad latitude among good rows makes
the whole load abort with an exception — no table is returned and no row
is projected. -/
theorem claim_C3_counterexample :
    (loadLogFile projTriv ⟨2026, 10, 12⟩
      ⟨2, [⟨"GPS.Latitude", [Cell.str "40.0", Cell.str "abc"]⟩,
           ⟨"GPS.Longitude", [Cell.str "-73.0", Cell.str "-73.5"]⟩]⟩).toOption
      = none := by
  decide

/-- **C3 (amended).** For every table carrying both GPS coordinate
columns, one cell (in either column) whose text `float()` cannot parse
makes the GPS projection stage raise `ValueError`, aborting the pipeline:
no per-row fallback exists. (Surrounding whitespace is still tolerated,
since `float()` strips it.) -/
theorem claim_C3_unparsable_aborts_amended
    (projQ : ℚ → ℚ → ℚ → ℚ → ℚ × ℚ) (t : Table)
    (hb : (hasCol t "GPS.Longitude" && hasCol t "GPS.Latitude") = true)
    (h : (∃ c ∈ getColD t "GPS.Longitude", ∃ e, astypeFloat c = .error e) ∨
         (∃ c ∈ getColD t "GPS.Latitude", ∃ e, astypeFloat c = .error e)) :
    ∃ e, gpsProject projQ t = .error e := by
  unfold gpsProject
  rw [hb, if_pos rfl]
  rcases h with hlon | hlat
  · obtain ⟨e, he⟩ := astypeFloatCol_error _ hlon
    rw [he]
    exact ⟨e, rfl⟩
  · cases hLon : astypeFloatCol (getColD t "GPS.Longitude") with
    | error e => exact ⟨e, rfl⟩
    | ok lons =>
      obtain ⟨e, he⟩ := astypeFloatCol_error _ hlat
      rw [he]
      exact ⟨e, rfl⟩

theorem claim_C3_witness :
    ∃ e, gpsProject projTriv
      ⟨1, [⟨"GPS.Latitude", [Cell.str "abc"]⟩,
           ⟨"GPS.Longitude", [Cell.str "1.0"]⟩]⟩ = .error e :=
  claim_C3_unparsable_aborts_amended projTriv
    ⟨1, [⟨"GPS.Latitude", [Cell.str "abc"]⟩,
         ⟨"GPS.Longitude", [Cell.str "1.0"]⟩]⟩ (by decide)
    (Or.inr ⟨Cell.str "abc", by decide,
      "could not convert string to float: abc", rfl⟩)

/-- **C10 (counterexample).** The claim quantifies over every input table
with a `DateTime` column and no `ElapsedTime` column. A `DateTime` column
whose cells are all missing is dropped by the loader's empty-column
removal (line 54), so the time-reconstruction block runs after all and
the output DOES contain `ElapsedTime`. -/
theorem claim_C10_counterexample :
    hasCol (⟨2, [⟨"DateTime", [Cell.missing, Cell.missing]⟩,
        ⟨"A", [Cell.num 1, Cell.num 2]⟩]⟩ : Table) "DateTime" = true ∧
    hasCol (⟨2, [⟨"DateTime", [Cell.missing, Cell.missing]⟩,
        ⟨"A", [Cell.num 1, Cell.num 2]⟩]⟩ : Table) "ElapsedTime" = false ∧
    (loadLogFile projTriv ⟨2026, 10, 12⟩
        ⟨2, [⟨"DateTime", [Cell.missing, Cell.missing]⟩,
             ⟨"A", [Cell.num 1, Cell.num 2]⟩]⟩).toOption.map
      (fun r => hasCol r.1 "ElapsedTime") = some true := by
  exact ⟨by decide, by decide, by decide⟩

/-- **C10 (amended).** For every input table with a `DateTime` column
that is not entirely missing (so it survives the loader's empty-column
drop) and no `ElapsedTime` column, a successful pipeline run produces no
`ElapsedTime` column: the `DateTime` pass-through skips the whole
time-reconstruction block, and no later stage writes `ElapsedTime`. -/
theorem claim_C10_no_elapsed_amended (projQ : ℚ → ℚ → ℚ → ℚ → ℚ × ℚ)
    (today : CDate) (t out : Table) (st : String) (vs : List Cell)
    (hdt : getCol t "DateTime" = some vs)
    (hnm : vs.all isMissingCell = false)
    (hel : hasCol t "ElapsedTime" = false)
    (hok : loadLogFile projQ today t = .ok (out, st)) :
    hasCol out "ElapsedTime" = false := by
  unfold loadLogFile at hok
  split at hok
  · cases hok
  · next t2 heq2 =>
    split at hok
    · cases hok
    · next t3 s1 heq3 =>
      split at hok
      · cases hok
      · next t4 s2 heq4 =>
        cases hok
        have h1 : getCol (dropEmpty t) "DateTime" = some vs :=
          getCol_dropEmpty_some _ _ _ hdt hnm
        have hdt1 : hasCol (dropEmpty t) "DateTime" = true := by
          rw [hasCol_eq_isSome, h1]
          rfl
        have hel1 : hasCol (dropEmpty t) "ElapsedTime" = false :=
          hasCol_dropEmpty_false _ _ hel
        have hf2 := gpsSplit_frame _ _ heq2
        have hdt2 : hasCol t2 "DateTime" = true := by
          rw [hasCol_congr _ _ _
            (hf2 "DateTime" (by decide) (by decide) (by decide)).1]
          exact hdt1
        have hel2 : hasCol t2 "ElapsedTime" = false := by
          rw [hasCol_congr _ _ _
            (hf2 "ElapsedTime" (by decide) (by decide) (by decide)).1]
          exact hel1
        have hf3 := gpsProject_frame _ _ _ _ heq3
        have hdt3 : hasCol t3 "DateTime" = true := by
          rw [hasCol_congr _ _ _ (hf3 "DateTime" (by decide) (by decide)).1]
          exact hdt2
        have hel3 : hasCol t3 "ElapsedTime" = false := by
          rw [hasCol_congr _ _ _
            (hf3 "ElapsedTime" (by decide) (by decide)).1]
          exact hel2
        rw [timeReconstruct_pass today t3 hdt3] at heq4
        cases heq4
        rw [hasCol_sortCols]
        rw [hasCol_congr _ _ _
          (lipoStage_frame (powerStage t3).1 "ElapsedTime" (by decide)).1]
        rw [hasCol_congr _ _ _
          (powerStage_frame t3 "ElapsedTime" (by decide)).1]
        exact hel3

theorem claim_C10_witness :
    (loadLogFile projTriv ⟨2026, 10, 12⟩
        (⟨1, [⟨"DateTime", [Cell.num 1791806400]⟩,
              ⟨"A", [Cell.num 7]⟩]⟩ : Table)).toOption.map
      (fun r => hasCol r.1 "ElapsedTime") = some false := by
  cases hok : loadLogFile projTriv ⟨2026, 10, 12⟩
      (⟨1, [⟨"DateTime", [Cell.num 1791806400]⟩,
            ⟨"A", [Cell.num 7]⟩]⟩ : Table) with
  | error e =>
    have hsome : (loadLogFile projTriv ⟨2026, 10, 12⟩
        (⟨1, [⟨"DateTime", [Cell.num 1791806400]⟩,
              ⟨"A", [Cell.num 7]⟩]⟩ : Table)).toOption.isSome = true := by
      decide
    rw [hok] at hsome
    cases hsome
  | ok r =>
    have hE := claim_C10_no_elapsed_amended projTriv ⟨2026, 10, 12⟩
      (⟨1, [⟨"DateTime", [Cell.num 1791806400]⟩,
            ⟨"A", [Cell.num 7]⟩]⟩ : Table) r.1 r.2
      [Cell.num 1791806400] (by decide) (by decide) (by decide) hok
    show some (hasCol r.1 "ElapsedTime") = some false
    rw [hE]

instance : IsTotal Col
    (fun a b : Col => strLeCh a.name.toList b.name.toList = true) :=
  ⟨fun _ _ => strLeCh_total _ _⟩

instance : IsTrans Col
    (fun a b : Col => strLeCh a.name.toList b.name.toList = true) :=
  ⟨fun _ _ _ => strLeCh_trans _ _ _⟩

theorem strOfToList_inj (a b : String) (h : a.toList = b.toList) :
    a = b := by
  cases a
  cases b
  exact congrArg String.mk h

/-- **C9.** For every well-formed input table (uniform column lengths,
distinct column names), a successful pipeline run yields output columns
in strictly increasing code-point (ordinal, case-sensitive) name order;
the row count is unchanged; every output column still has that row
count; and any column the pipeline does not touch (name outside the
stage-written set, not dropped as all-missing) keeps its values in the
original row order. -/
theorem claim_C9_sorted_columns (projQ : ℚ → ℚ → ℚ → ℚ → ℚ × ℚ)
    (today : CDate) (t out : Table) (st : String)
    (hu : UniformLen t) (hnd : NamesNodup t)
    (hok : loadLogFile projQ today t = .ok (out, st)) :
    List.Pairwise
      (fun a b : Col => strLtCh a.name.toList b.name.toList = true)
      out.cols ∧
    out.nRows = t.nRows ∧
    (∀ c ∈ out.cols, c.values.length = t.nRows) ∧
    (∀ m vs, m ∉ (["GPS", "GPS.Latitude", "GPS.Longitude", "GPS.X(m)",
        "GPS.Y(m)", "Time", "Date", "DateTime", "ElapsedTime", "Power (W)",
        "LiPo Total (V)"] : List String) →
      getCol t m = some vs → vs.all isMissingCell = false →
      getCol out m = some vs) := by
  unfold loadLogFile at hok
  split at hok
  · cases hok
  · next t2 heq2 =>
    split at hok
    · cases hok
    · next t3 s1 heq3 =>
      split at hok
      · cases hok
      · next t4 s2 heq4 =>
        cases hok
        have hu1 := uniformLen_dropEmpty t hu
        have hnd1 := namesNodup_dropEmpty t hnd
        have hu2 := uniformLen_gpsSplit _ _ heq2 hu1
        have hnd2 := namesNodup_gpsSplit _ _ heq2 hnd1
        have hu3 := uniformLen_gpsProject _ _ _ _ heq3 hu2
        have hnd3 := namesNodup_gpsProject _ _ _ _ heq3 hnd2
        have hu4 := uniformLen_timeReconstruct _ _ _ _ heq4 hu3
        have hnd4 := namesNodup_timeReconstruct _ _ _ _ heq4 hnd3
        have hup := uniformLen_lipoStage _ (uniformLen_powerStage _ hu4)
        have hndp := namesNodup_lipoStage _ (namesNodup_powerStage _ hnd4)
        have hr2 := (gpsSplit_frame _ _ heq2 "x" (by decide) (by decide)
          (by decide)).2
        have hr3 := (gpsProject_frame _ _ _ _ heq3 "x" (by decide)
          (by decide)).2
        have hr4 := (timeReconstruct_frame _ _ _ _ heq4 "x" (by decide)
          (by decide) (by decide) (by decide)).2
        have hrp : (lipoStage (powerStage t4).1).1.nRows = t.nRows := by
          rw [(lipoStage_frame _ "x" (by decide)).2,
            (powerStage_frame _ "x" (by decide)).2, hr4, hr3, hr2,
            nRows_dropEmpty]
        refine ⟨?_, ?_, ?_, ?_⟩
        · have hsorted := List.sorted_insertionSort
            (fun a b : Col => strLeCh a.name.toList b.name.toList = true)
            (lipoStage (powerStage t4).1).1.cols
          have hndout : NamesNodup
              (sortCols (lipoStage (powerStage t4).1).1) :=
            namesNodup_sortCols _ hndp
          have hne : List.Pairwise (fun a b : Col => a.name ≠ b.name)
              (sortCols (lipoStage (powerStage t4).1).1).cols :=
            List.pairwise_map.mp hndout
          refine (hsorted.and hne).imp ?_
          intro a b hab
          exact strLeCh_of_ne _ _ hab.1
            (fun he => hab.2 (strOfToList_inj _ _ he))
        · rw [nRows_sortCols]
          exact hrp
        · intro c hc
          rw [uniformLen_sortCols _ hup c hc, nRows_sortCols]
          exact hrp
        · intro m vs hmem hgc hnm
          have hneq : ∀ s : String, s ∈ (["GPS", "GPS.Latitude",
              "GPS.Longitude", "GPS.X(m)", "GPS.Y(m)", "Time", "Date",
              "DateTime", "ElapsedTime", "Power (W)", "LiPo Total (V)"] :
              List String) → m ≠ s :=
            fun s hs he => hmem (he ▸ hs)
          rw [getCol_sortCols_of_nodup _ hndp,
            (lipoStage_frame _ m (hneq _ (by decide))).1,
            (powerStage_frame _ m (hneq _ (by decide))).1,
            (timeReconstruct_frame _ _ _ _ heq4 m (hneq _ (by decide))
              (hneq _ (by decide)) (hneq _ (by decide))
              (hneq _ (by decide))).1,
            (gpsProject_frame _ _ _ _ heq3 m (hneq _ (by decide))
              (hneq _ (by decide))).1,
            (gpsSplit_frame _ _ heq2 m (hneq _ (by decide))
              (hneq _ (by decide)) (hneq _ (by decide))).1]
          exact getCol_dropEmpty_some t m vs hgc hnm

theorem claim_C9_witness :
    (loadLogFile projTriv ⟨2026, 10, 12⟩
        (⟨2, [⟨"B", [Cell.num 1, Cell.num 2]⟩,
              ⟨"A", [Cell.num 3, Cell.num 4]⟩]⟩ : Table)).toOption.map
      (fun r => decide (List.Pairwise
        (fun a b : Col => strLtCh a.name.toList b.name.toList = true)
        r.1.cols)) = some true := by
  cases hok : loadLogFile projTriv ⟨2026, 10, 12⟩
      (⟨2, [⟨"B", [Cell.num 1, Cell.num 2]⟩,
            ⟨"A", [Cell.num 3, Cell.num 4]⟩]⟩ : Table) with
  | error e =>
    have hsome : (loadLogFile projTriv ⟨2026, 10, 12⟩
        (⟨2, [⟨"B", [Cell.num 1, Cell.num 2]⟩,
              ⟨"A", [Cell.num 3, Cell.num 4]⟩]⟩ : Table)).toOption.isSome
        = true := by
      decide
    rw [hok] at hsome
    cases hsome
  | ok r =>
    have h := claim_C9_sorted_columns projTriv ⟨2026, 10, 12⟩
      (⟨2, [⟨"B", [Cell.num 1, Cell.num 2]⟩,
            ⟨"A", [Cell.num 3, Cell.num 4]⟩]⟩ : Table) r.1 r.2
      (by unfold UniformLen; decide) (by unfold NamesNodup; decide) hok
    show some (decide _) = some true
    rw [decide_eq_true h.1]

theorem pad2_zero : pad2 0 = ['0', '0'] := by
  rw [pad2, if_pos (by omega), natDigits, dif_pos (by omega)]
  decide

theorem pad2_one : pad2 1 = ['0', '1'] := by
  rw [pad2, if_pos (by omega), natDigits, dif_pos (by omega)]
  decide

theorem pad2_two : pad2 2 = ['0', '2'] := by
  rw [pad2, if_pos (by omega), natDigits, dif_pos (by omega)]
  decide

theorem pad2_twelve : pad2 12 = ['1', '2'] := by
  rw [pad2, if_neg (by omega), natDigits, dif_neg (by omega), natDigits,
    dif_pos (by omega)]
  decide

theorem genTime_zero : genTime 0 = "12:00:00.000" := by
  refine strOfToList_inj _ _ ?_
  rw [genTime_toList]
  norm_num
  rw [pad2_twelve, pad2_zero]
  rfl

theorem genTime_one : genTime 1 = "12:00:01.000" := by
  refine strOfToList_inj _ _ ?_
  rw [genTime_toList]
  norm_num
  rw [pad2_twelve, pad2_zero, pad2_one]
  rfl

theorem genTime_two : genTime 2 = "12:00:02.000" := by
  refine strOfToList_inj _ _ ?_
  rw [genTime_toList]
  norm_num
  rw [pad2_twelve, pad2_zero, pad2_two]
  rfl

theorem getColD_eq (t : Table) (n : String) (vs : List Cell)
    (h : getCol t n = some vs) : getColD t n = vs := by
  rw [getColD, h]
  rfl

theorem zipWith_replicate_map {A B C : Type} (f : A → B → C) (d : A)
    (g : Nat → B) (n : Nat) :
    List.zipWith f (List.replicate n d) ((List.range n).map g) =
      (List.range n).map (fun i => f d (g i)) := by
  induction n generalizing g with
  | zero => rfl
  | succ n ih =>
    simp only [List.range_succ_eq_map, List.replicate_succ, List.map_cons,
      List.map_map, List.zipWith_cons_cons]
    rw [ih (g ∘ Nat.succ)]
    rfl

theorem computeElapsed_range (D : ℚ) (n : Nat) :
    computeElapsed ((List.range n).map (fun (i : Nat) => some (D + (i : ℚ)))) =
      (List.range n).map (fun (i : Nat) => some ((i : ℚ))) := by
  cases n with
  | zero => rfl
  | succ n =>
    have hall : ((List.range (n + 1)).map
        (fun (i : Nat) => some (D + (i : ℚ)))).all Option.isNone = false := by
      rw [List.range_succ_eq_map, List.map_cons]
      rfl
    have hhead : ((List.range (n + 1)).map
        (fun (i : Nat) => some (D + (i : ℚ)))).headD none =
        some (D + ((0 : ℕ) : ℚ)) := by
      rw [List.range_succ_eq_map, List.map_cons]
      rfl
    unfold computeElapsed
    rw [hall, if_neg (by decide), hhead, List.map_map]
    refine List.map_congr_left ?_
    intro i hi
    show some ((D + (i : ℚ)) - (D + ((0 : ℕ) : ℚ))) = some ((i : ℚ))
    congr 1
    rw [Nat.cast_zero, add_zero]
    exact add_sub_cancel_left D _

/-- **C5.** For every input table with no `DateTime`, no `Time`, no
`Date` and no GPS columns, and any valid current calendar date: the
pipeline synthesizes `Time` with row `i` equal to 12:00:00.000 plus
exactly `i` seconds formatted to millisecond precision (`genTime i`,
the translation of lines 100-102), synthesizes `Date` as the current
date repeated identically in every row, derives `ElapsedTime` with row
`i` equal to `i` seconds (for tables short enough that the source's
`%H`-wrap at 24 h cannot fire, i.e. at most 43200 rows — for 3 rows
this is `[0, 1, 2]`), produces no GPS-derived columns, and the status
string reports that no GPS data, no time data and no date data were
found. -/
theorem claim_C5_synthesized_time (projQ : ℚ → ℚ → ℚ → ℚ → ℚ × ℚ)
    (today : CDate) (t out : Table) (st : String)
    (h1 : hasCol t "DateTime" = false) (h2 : hasCol t "Time" = false)
    (h3 : hasCol t "Date" = false) (h4 : hasCol t "GPS" = false)
    (h6 : hasCol t "GPS.Longitude" = false)
    (h7 : hasCol t "GPS.X(m)" = false) (h8 : hasCol t "GPS.Y(m)" = false)
    (hnd : NamesNodup t)
    (hy : today.year < 10000) (hm1 : 1 ≤ today.month)
    (hm2 : today.month ≤ 12) (hd1 : 1 ≤ today.day)
    (hd2 : today.day ≤ daysInMonth today.year today.month)
    (hok : loadLogFile projQ today t = .ok (out, st)) :
    getCol out "Time" =
      some ((List.range t.nRows).map (fun i => Cell.str (genTime i))) ∧
    getCol out "Date" =
      some (List.replicate t.nRows (Cell.str (fmtDate today))) ∧
    (t.nRows ≤ 43200 →
      getCol out "ElapsedTime" =
        some ((List.range t.nRows).map (fun (i : Nat) => Cell.num ((i : ℚ))))) ∧
    hasCol out "GPS.X(m)" = false ∧ hasCol out "GPS.Y(m)" = false ∧
    containsSubstr st "No GPS data found." = true ∧
    containsSubstr st "No time data found." = true ∧
    containsSubstr st "No date data found." = true := by
  unfold loadLogFile at hok
  split at hok
  · cases hok
  · next t2 heq2 =>
    split at hok
    · cases hok
    · next t3 s1 heq3 =>
      split at hok
      · cases hok
      · next t4 s2 heq4 =>
        cases hok
        rw [gpsSplit_no_gps _ (hasCol_dropEmpty_false _ _ h4)] at heq2
        cases heq2
        rw [gpsProject_no_gps projQ _ (hasCol_dropEmpty_false _ _ h6)]
          at heq3
        cases heq3
        rw [timeReconstruct_no_dt today _ (hasCol_dropEmpty_false _ _ h1),
          ensureTime_no_time _ (hasCol_dropEmpty_false _ _ h2)] at heq4
        cases heq4
        have hDateT : hasCol (setCol (dropEmpty t) "Time"
            ((List.range (dropEmpty t).nRows).map
              (fun i => Cell.str (genTime i)))) "Date" = false := by
          rw [hasCol_setCol, hasCol_dropEmpty_false _ _ h3]
          decide
        have hD1 : (ensureDate today (setCol (dropEmpty t) "Time"
            ((List.range (dropEmpty t).nRows).map
              (fun i => Cell.str (genTime i))))).1 =
            setCol (setCol (dropEmpty t) "Time"
              ((List.range (dropEmpty t).nRows).map
                (fun i => Cell.str (genTime i)))) "Date"
              (List.replicate t.nRows (Cell.str (fmtDate today))) := by
          rw [ensureDate_no_date today _ hDateT, nRows_setCol,
            nRows_dropEmpty]
        have hD2 : (ensureDate today (setCol (dropEmpty t) "Time"
            ((List.range (dropEmpty t).nRows).map
              (fun i => Cell.str (genTime i))))).2 =
            "No date data found.\n" := by
          rw [ensureDate_no_date today _ hDateT]
        rw [hD1, hD2]
        have hGn : (List.range (dropEmpty t).nRows).map
            (fun i => Cell.str (genTime i)) =
            (List.range t.nRows).map (fun i => Cell.str (genTime i)) := by
          rw [nRows_dropEmpty]
        rw [hGn]
        have hgT : getCol (setCol (setCol (dropEmpty t) "Time"
            ((List.range t.nRows).map (fun i => Cell.str (genTime i))))
            "Date" (List.replicate t.nRows (Cell.str (fmtDate today))))
            "Time" =
            some ((List.range t.nRows).map
              (fun i => Cell.str (genTime i))) := by
          rw [getCol_setCol_ne _ _ _ _ (by decide), getCol_setCol_self]
        have hgD : getCol (setCol (setCol (dropEmpty t) "Time"
            ((List.range t.nRows).map (fun i => Cell.str (genTime i))))
            "Date" (List.replicate t.nRows (Cell.str (fmtDate today))))
            "Date" =
            some (List.replicate t.nRows (Cell.str (fmtDate today))) :=
          getCol_setCol_self _ _ _
        have hmk : mkDTs (setCol (setCol (dropEmpty t) "Time"
            ((List.range t.nRows).map (fun i => Cell.str (genTime i))))
            "Date" (List.replicate t.nRows (Cell.str (fmtDate today)))) =
            (List.range t.nRows).map
              (fun i => parseDateTime (fmtDate today ++ " " ++
                genTime i)) := by
          unfold mkDTs
          rw [getColD_eq _ _ _ hgD, getColD_eq _ _ _ hgT,
            zipWith_replicate_map]
          rfl
        have hET : t.nRows ≤ 43200 →
            getCol (finishTime (setCol (setCol (dropEmpty t) "Time"
              ((List.range t.nRows).map (fun i => Cell.str (genTime i))))
              "Date" (List.replicate t.nRows
                (Cell.str (fmtDate today))))) "ElapsedTime" =
            some ((List.range t.nRows).map
              (fun (i : Nat) => Cell.num ((i : ℚ)))) := by
          intro hle
          have hmk2 : mkDTs (setCol (setCol (dropEmpty t) "Time"
              ((List.range t.nRows).map (fun i => Cell.str (genTime i))))
              "Date" (List.replicate t.nRows
                (Cell.str (fmtDate today)))) =
              (List.range t.nRows).map (fun (i : Nat) => some
                (((daysFromCivil today.year today.month today.day : ℚ) *
                  86400 + 43200) + (i : ℚ))) := by
            rw [hmk]
            refine List.map_congr_left ?_
            intro i hi
            rw [List.mem_range] at hi
            rw [parseDateTime_fmt_gen today hy hm1 hm2 hd1 hd2 i
              (by omega), ← add_assoc]
          unfold finishTime
          rw [getCol_setCol_self, hmk2, computeElapsed_range,
            List.map_map]
          rfl
        have hndD : NamesNodup (setCol (setCol (dropEmpty t) "Time"
            ((List.range t.nRows).map (fun i => Cell.str (genTime i))))
            "Date" (List.replicate t.nRows (Cell.str (fmtDate today)))) :=
          namesNodup_setCol _ _ _
            (namesNodup_setCol _ _ _ (namesNodup_dropEmpty t hnd))
        have hndp : NamesNodup (lipoStage (powerStage
            (finishTime (setCol (setCol (dropEmpty t) "Time"
              ((List.range t.nRows).map (fun i => Cell.str (genTime i))))
              "Date" (List.replicate t.nRows
                (Cell.str (fmtDate today)))))).1).1 :=
          namesNodup_lipoStage _ (namesNodup_powerStage _
            (namesNodup_finishTime _ hndD))
        refine ⟨?_, ?_, ?_, ?_, ?_, ?_, ?_, ?_⟩
        · rw [getCol_sortCols_of_nodup _ hndp,
            (lipoStage_frame _ _ (by decide)).1,
            (powerStage_frame _ _ (by decide)).1,
            getCol_finishTime_ne _ _ (by decide) (by decide), hgT]
        · rw [getCol_sortCols_of_nodup _ hndp,
            (lipoStage_frame _ _ (by decide)).1,
            (powerStage_frame _ _ (by decide)).1,
            getCol_finishTime_ne _ _ (by decide) (by decide), hgD]
        · intro hle
          rw [getCol_sortCols_of_nodup _ hndp,
            (lipoStage_frame _ _ (by decide)).1,
            (powerStage_frame _ _ (by decide)).1, hET hle]
        · rw [hasCol_sortCols,
            hasCol_congr _ _ _ (lipoStage_frame _ _ (by decide)).1,
            hasCol_congr _ _ _ (powerStage_frame _ _ (by decide)).1]
          unfold finishTime
          rw [hasCol_setCol, hasCol_setCol, hasCol_setCol, hasCol_setCol,
            hasCol_dropEmpty_false _ _ h7]
          decide
        · rw [hasCol_sortCols,
            hasCol_congr _ _ _ (lipoStage_frame _ _ (by decide)).1,
            hasCol_congr _ _ _ (powerStage_frame _ _ (by decide)).1]
          unfold finishTime
          rw [hasCol_setCol, hasCol_setCol, hasCol_setCol, hasCol_setCol,
            hasCol_dropEmpty_false _ _ h8]
          decide
        · exact containsSubstr_appendl _ _ _ (containsSubstr_appendl _ _ _
            (containsSubstr_appendl _ _ _ (by decide)))
        · exact containsSubstr_appendl _ _ _ (containsSubstr_appendl _ _ _
            (containsSubstr_appendr _ _ _ (containsSubstr_appendl _ _ _
              (by decide))))
        · exact containsSubstr_appendl _ _ _ (containsSubstr_appendl _ _ _
            (containsSubstr_appendr _ _ _ (containsSubstr_appendr _ _ _
              (by decide))))

theorem claim_C5_witness :
    (loadLogFile projTriv ⟨2026, 10, 12⟩
        (⟨3, [⟨"Alt(m)", [Cell.num 1, Cell.num 2, Cell.num 3]⟩]⟩ :
          Table)).toOption.map
      (fun r => (getCol r.1 "Time", getCol r.1 "ElapsedTime")) =
      some (some [Cell.str "12:00:00.000", Cell.str "12:00:01.000",
        Cell.str "12:00:02.000"],
        some [Cell.num 0, Cell.num 1, Cell.num 2]) := by
  cases hok : loadLogFile projTriv ⟨2026, 10, 12⟩
      (⟨3, [⟨"Alt(m)", [Cell.num 1, Cell.num 2, Cell.num 3]⟩]⟩ : Table) with
  | error e =>
    exfalso
    unfold loadLogFile at hok
    split at hok
    · next s heq =>
      rw [gpsSplit_no_gps _ (by decide)] at heq
      cases heq
    · next t2 heq2 =>
      rw [gpsSplit_no_gps _ (by decide)] at heq2
      cases heq2
      split at hok
      · next s heq =>
        rw [gpsProject_no_gps projTriv _ (by decide)] at heq
        cases heq
      · next t3 s1 heq3 =>
        rw [gpsProject_no_gps projTriv _ (by decide)] at heq3
        cases heq3
        split at hok
        · next s heq =>
          rw [timeReconstruct_no_dt ⟨2026, 10, 12⟩ _ (by decide),
            ensureTime_no_time _ (by decide)] at heq
          cases heq
        · next t4 s2 heq4 =>
          cases hok
  | ok r =>
    have h := claim_C5_synthesized_time projTriv ⟨2026, 10, 12⟩
      (⟨3, [⟨"Alt(m)", [Cell.num 1, Cell.num 2, Cell.num 3]⟩]⟩ : Table)
      r.1 r.2 (by decide) (by decide) (by decide) (by decide) (by decide)
      (by decide) (by decide) (by unfold NamesNodup; decide)
      (by decide) (by decide) (by decide) (by decide) (by decide) hok
    show some (getCol r.1 "Time", getCol r.1 "ElapsedTime") = _
    rw [h.1, h.2.2.1 (by decide)]
    show some (some [Cell.str (genTime 0), Cell.str (genTime 1),
        Cell.str (genTime 2)],
      some [Cell.num ((0 : ℕ) : ℚ), Cell.num ((1 : ℕ) : ℚ),
        Cell.num ((2 : ℕ) : ℚ)]) = _
    rw [genTime_zero, genTime_one, genTime_two]
    decide

theorem claim_C8_witness :
    (gpsProjectRows [(40 : ℝ)] [(-73 : ℝ)]).getD 0 (0, 0) = (0, 0) :=
  (claim_C8_centroid_zero [40] [-73]).1 0 (by simp [gpsProjectRows])
    (by simp [meanR]) (by simp [meanR])

end EthosLog
